import Mathlib

/-!
Shallow embedding of the HMC payroll scraping engine (`src/unnamed/part_004`,
the `jobs.ts` module of the repository, plus its HTTP-route callers).

Modelling conventions:
* Text is modelled as `List Char` (`Chars`); JavaScript string operations
  (`trim`, `replace`, `slice`, `padStart`, template literals) are modelled as
  executable functions on character lists.  JS `trim` / `toLowerCase` are
  Unicode-aware; the model covers the ASCII whitespace and letters that occur
  in the code's inputs.
* Loosely-typed record values (`unknown` in TypeScript) are modelled by the
  inductive `JValue`; JS `String(v)` coercion is `jsToString`.  Numeric values
  are modelled as integers (the portal's numeric payloads are integral; float
  formatting is outside the model).
* JS `Number(string)` is modelled by `jsNumberParse : Chars → Option Rat`,
  `none` standing for a non-finite result (NaN or ±Infinity, both of which the
  code's `Number.isFinite` guard maps to `0`).  `Math.round` is
  `jsRound` (floor of x + 1/2, which is JS round-half-toward-+∞ semantics).
* Third-party library calls (the `got` HTTP client, `cheerio` HTML parsing,
  `crypto.randomUUID`, timers) are external to the repository; their outcomes
  are inputs of the model (environment records), while every piece of
  repository logic is translated concretely.
-/

/-- Character lists standing for JavaScript strings. -/
abbrev Chars := List Char

/-- Conversion from a Lean string literal to the character-list model. -/
def s2c (s : String) : Chars := s.data

/-- Whitespace as stripped by JS `String.prototype.trim` (ASCII fragment). -/
def isWs (c : Char) : Bool := c = ' ' || c = '\t' || c = '\n' || c = '\r'

/-- Model of JS `String.prototype.trim`. -/
def jsTrim (l : Chars) : Chars :=
  ((l.dropWhile isWs).reverse.dropWhile isWs).reverse

/-- Decides whether `p` is a prefix of `l` (JS `String.prototype.startsWith`). -/
def pfxOf : Chars → Chars → Bool
  | [], _ => true
  | _ :: _, [] => false
  | a :: p, b :: l => a = b && pfxOf p l

/-- Decides whether `needle` occurs as a contiguous substring of `hay`
(JS `String.prototype.includes`). -/
def hasSub (needle : Chars) : Chars → Bool
  | [] => pfxOf needle []
  | c :: rest => pfxOf needle (c :: rest) || hasSub needle rest

/-- Decimal digit test, matching the regex character class `[0-9]`. -/
def isDig (c : Char) : Bool := '0' ≤ c && c ≤ '9'

/-- Numeric value of a decimal digit character. -/
def digVal (c : Char) : Nat := c.toNat - 48

/-- Value of a decimal digit string (most significant digit first). -/
def natOfDigits (l : Chars) : Nat := l.foldl (fun a c => 10 * a + digVal c) 0

/-- Decimal rendering of a natural number (JS `String(n)` for naturals). -/
def natToChars (n : Nat) : Chars := (Nat.repr n).data

/-- Decimal rendering of an integer (JS `String(n)` for integral numbers). -/
def intToChars (n : Int) : Chars := (Int.repr n).data

/-- Loosely-typed JavaScript values as they occur in the scraped records:
strings, integral numbers, booleans, `null`, `undefined`, and nested
objects/arrays.  Objects and arrays are cons-encoded (`vobjCons` /
`varrCons` chains ending in `vobjNil` / `varrNil`) so that every function on
values is structurally recursive and kernel-computable; the list-based smart
constructors `varrOf` and `vobjOf` build well-formed chains. -/
inductive JValue where
  | vstr (s : Chars)
  | vint (n : Int)
  | vbool (b : Bool)
  | vnull
  | vundef
  | vobjNil
  | vobjCons (key : Chars) (val : JValue) (rest : JValue)
  | varrNil
  | varrCons (head : JValue) (tail : JValue)
deriving DecidableEq, Repr

/-- Array value built from a list of element values. -/
def varrOf (l : List JValue) : JValue := l.foldr .varrCons .varrNil

/-- Object value built from a list of key/value fields. -/
def vobjOf (l : List (Chars × JValue)) : JValue :=
  l.foldr (fun p r => .vobjCons p.1 p.2 r) .vobjNil

/-- Model of the JS `String(v)` coercion: strings unchanged, numbers in
decimal, `String(null) = "null"`, `String(undefined) = "undefined"`, plain
objects to `"[object Object]"`, arrays joined by commas with null/undefined
elements rendered empty (the `Array.prototype.toString`/`join` behaviour,
which recursively flattens nested arrays). -/
def jsToString : JValue → Chars
  | .vstr s => s
  | .vint n => intToChars n
  | .vbool b => if b then s2c "true" else s2c "false"
  | .vnull => s2c "null"
  | .vundef => s2c "undefined"
  | .vobjNil => s2c "[object Object]"
  | .vobjCons _ _ _ => s2c "[object Object]"
  | .varrNil => []
  | .varrCons h t =>
    (match h with
      | .vnull => []
      | .vundef => []
      | x => jsToString x) ++
    (match t with
      | .varrNil => []
      | x => ',' :: jsToString x)

/-- Hexadecimal digit value, when `c` is one (for JS `Number("0x…")`). -/
def hexVal (c : Char) : Option Nat :=
  if isDig c then some (digVal c)
  else if 'a' ≤ c && c ≤ 'f' then some (c.toNat - 97 + 10)
  else if 'A' ≤ c && c ≤ 'F' then some (c.toNat - 65 + 10)
  else none

/-- Value of a digit string in radix `b`, `none` when some character is not a
digit of that radix or the string is empty. -/
def radixVal (b : Nat) : Chars → Option Nat
  | [] => none
  | [c] => match hexVal c with
    | some v => if v < b then some v else none
    | none => none
  | c :: rest => match hexVal c, radixVal b rest with
    | some v, some r => if v < b then some (b ^ rest.length * v + r) else none
    | _, _ => none

/-- Exact finite JS number `m · 10^e`, the result of parsing a numeric
literal.  Kept as a mantissa/exponent pair so all arithmetic in the model is
integer arithmetic (kernel-computable); `decVal` gives its rational value. -/
structure Dec10 where
  m : Int
  e : Int
deriving DecidableEq, Repr

/-- Rational value of a parsed number (for specification statements only). -/
def decVal (d : Dec10) : Rat := (d.m : Rat) * 10 ^ d.e

/-- Exponent suffix of a JS decimal numeric literal: empty, or
`(e|E)(+|-)?digits` with nothing after; `none` means NaN. -/
def parseExpPart (base : Dec10) : Chars → Option Dec10
  | [] => some base
  | c :: rest =>
    if c = 'e' || c = 'E' then
      let sgn : Int := if rest.head? = some '-' then -1 else 1
      let ds := if rest.head? = some '+' || rest.head? = some '-' then rest.tail else rest
      let e := ds.takeWhile isDig
      if e = [] || ds.dropWhile isDig ≠ [] then none
      else some ⟨base.m, base.e + sgn * natOfDigits e⟩
    else none

/-- Unsigned JS decimal literal: `digits`, `digits.digits?`, `.digits`, each
with an optional exponent part; `none` means NaN. -/
def parseUnsigned (l : Chars) : Option Dec10 :=
  let a := l.takeWhile isDig
  let r1 := l.dropWhile isDig
  match r1 with
  | '.' :: r2 =>
    let b := r2.takeWhile isDig
    let r3 := r2.dropWhile isDig
    if a = [] && b = [] then none
    else parseExpPart ⟨(natOfDigits (a ++ b) : Int), -(b.length : Int)⟩ r3
  | _ => if a = [] then none else parseExpPart ⟨(natOfDigits a : Int), 0⟩ r1

/-- Model of JS `Number(s)` on an already-trimmed string, returning `some d`
for a finite result and `none` for NaN or ±Infinity (the code's
`Number.isFinite` guard treats both alike).  Covers the empty string (`0`),
signed decimal literals with fraction and exponent, `Infinity`, and the
unsigned radix literals `0x…`, `0o…`, `0b…`. -/
def jsNumberParse (l : Chars) : Option Dec10 :=
  if l = [] then some ⟨0, 0⟩
  else if pfxOf (s2c "0x") l || pfxOf (s2c "0X") l then
    (radixVal 16 (l.drop 2)).map (fun n => ⟨Int.ofNat n, 0⟩)
  else if pfxOf (s2c "0b") l || pfxOf (s2c "0B") l then
    (radixVal 2 (l.drop 2)).map (fun n => ⟨Int.ofNat n, 0⟩)
  else if pfxOf (s2c "0o") l || pfxOf (s2c "0O") l then
    (radixVal 8 (l.drop 2)).map (fun n => ⟨Int.ofNat n, 0⟩)
  else
    let sgn : Int := if l.head? = some '-' then -1 else 1
    let r := if l.head? = some '+' || l.head? = some '-' then l.tail else l
    if r = s2c "Infinity" then none
    else (parseUnsigned r).map (fun d => ⟨sgn * d.m, d.e⟩)

/-- Model of JS `Math.round` on a finite value `m · 10^e`: floor of the value
plus `1/2` (round half toward +∞, e.g. `round(-2.5) = -2`), computed with
integer floor division. -/
def jsRound (d : Dec10) : Int :=
  if 0 ≤ d.e then d.m * 10 ^ d.e.toNat
  else
    let den : Int := 10 ^ (-d.e).toNat
    Int.fdiv (2 * d.m + den) (2 * den)

/-- Branch body of `parseIntMoney` (part_004 lines 90–92) on the stripped,
trimmed text: empty gives 0, a finite `Number` parse is rounded, anything
else gives 0. -/
def parseIntMoneyText (stripped : Chars) : Int :=
  if stripped = [] then 0
  else match jsNumberParse stripped with
    | some q => jsRound q
    | none => 0

/-- Translation of `parseIntMoney` (part_004 lines 87–93) applied to a present
value: `null`/`undefined` give 0, otherwise the value is stringified, commas
removed, trimmed, and handed to `parseIntMoneyText`. -/
def parseIntMoneyVal (val : JValue) : Int :=
  match val with
  | .vnull => 0
  | .vundef => 0
  | v => parseIntMoneyText (jsTrim ((jsToString v).filter (fun c => c ≠ ',')))

/-- Translation of `parseIntMoney` as invoked on a `firstPresent` result,
where `none` models JS `undefined`. -/
def parseIntMoney (val : Option JValue) : Int :=
  match val with
  | none => 0
  | some v => parseIntMoneyVal v

/-- Decides the regex `^[0-9]\x7b4\x7d-[0-9]\x7b2\x7d-[0-9]\x7b2\x7d$` used by
`normalizeDate`. -/
def matchesYMD (l : Chars) : Bool :=
  match l with
  | [a, b, c, d, h1, e, f, h2, g, h] =>
    isDig a && isDig b && isDig c && isDig d && h1 = '-' &&
    isDig e && isDig f && h2 = '-' && isDig g && isDig h
  | _ => false

/-- Character replacement of the regex `[./]` by `-` (JS
`raw.replace(/[./]/g, '-')`). -/
def dotSlashToDash (l : Chars) : Chars :=
  l.map (fun c => if c = '.' || c = '/' then '-' else c)

/-- The `YYYY-MM-DD` rebuild of an eight-digit list (the template literal of
part_004 line 111). -/
def hyphenate8 (digits : Chars) : Chars :=
  digits.take 4 ++ '-' :: (digits.drop 4).take 2 ++ '-' :: digits.drop 6

/-- Translation of `normalizeDate` (part_004 lines 105–115) on the trimmed
raw text: strings whose digit content numbers exactly eight are rebuilt as
`YYYY-MM-DD` from those digits; otherwise `.`/`/` become `-` and the result
is kept when it matches `YYYY-MM-DD`, the (trimmed) input otherwise. -/
def normalizeDateRaw (raw : Chars) : Chars :=
  if raw = [] then []
  else
    let digits := raw.filter isDig
    if digits.length = 8 then hyphenate8 digits
    else
      let normalized := dotSlashToDash raw
      if matchesYMD normalized then normalized else raw

/-- Translation of `normalizeDate` (part_004 lines 105–115): `null` and
`undefined` (and a missing `firstPresent` result) give the empty string,
otherwise the value is stringified, trimmed, and normalized. -/
def normalizeDate (val : Option JValue) : Chars :=
  match val with
  | none => []
  | some .vnull => []
  | some .vundef => []
  | some v => normalizeDateRaw (jsTrim (jsToString v))

/-- Translation of `z2` (part_004 line 85): decimal rendering left-padded
with `'0'` to length 2 (`padStart(2, '0')`). -/
def z2 (m : Int) : Chars :=
  let s := intToChars m
  if s.length < 2 then '0' :: s else s

/-- Translation of `isHtml` (part_004 lines 173–176): trim, take the first 50
characters, lower-case, then test for a `<!doctype html` or `<html` prefix or
an embedded `<html`. -/
def isHtml (text : Chars) : Bool :=
  let trimmed := ((jsTrim text).take 50).map Char.toLower
  pfxOf (s2c "<!doctype html") trimmed || pfxOf (s2c "<html") trimmed ||
    hasSub (s2c "<html") trimmed

/-- Raw record: the loosely-typed key/value map of one payroll row.  JS
objects bind each key once; records produced by `JSON.parse` may carry
duplicate keys in source order, where the later binding wins (`recGet`). -/
abbrev Rec := List (Chars × JValue)

/-- Model of JS property read `record[key]`: the last binding of `key`
(later duplicate keys overwrite earlier ones), `none` for a missing key
(JS `undefined`). -/
def recGet (r : Rec) (k : Chars) : Option JValue :=
  match r with
  | [] => none
  | (k', v) :: rest =>
    match recGet rest k with
    | some w => some w
    | none => if k' = k then some v else none

/-- Condition of `firstPresent` (part_004 line 98):
`value !== undefined && value !== null && value !== ''` — strict equality, so
only the empty string is excluded among strings, and `0` or `false` pass. -/
def present : Option JValue → Bool
  | none => false
  | some .vnull => false
  | some .vundef => false
  | some (.vstr []) => false
  | some _ => true

/-- Translation of `firstPresent` (part_004 lines 95–103): the value of the
first key of `keys` whose value is present in `record`. -/
def firstPresent (record : Rec) (keys : List Chars) : Option JValue :=
  match keys with
  | [] => none
  | k :: rest =>
    let value := recGet record k
    if present value then value else firstPresent record rest

/-- Alias list literals as `Chars`. -/
def keylist (l : List String) : List Chars := l.map s2c

/-- Date alias list of `normalizeRows` (part_004 lines 184–196). -/
def dateKeys : List Chars :=
  keylist ["rqdatTxt", "rqdat", "rqDt", "payDate", "paydate", "payDt",
           "paydt", "payday", "payDay", "pdate", "payYmd"]

/-- Fallback date alias list (part_004 line 198). -/
def dateFallbackKeys : List Chars := keylist ["fpend", "fpEnd", "fpendTxt"]

/-- Category alias list (part_004 lines 203–211). -/
def categoryKeys : List Chars :=
  keylist ["paytyTxt", "paytyNm", "payTypeNm", "payType", "payName", "payNm",
           "category"]

/-- Group alias list (part_004 line 215). -/
def groupKeys : List Chars :=
  keylist ["paygubun", "payGubun", "paygubunCd", "payGroup", "group"]

/-- Gross-amount alias list (part_004 line 225). -/
def grossKeys : List Chars :=
  keylist ["bet01Txt", "bet01", "gross", "grossAmt", "totGross"]

/-- Deductions alias list (part_004 line 228). -/
def deductionsKeys : List Chars :=
  keylist ["bet07Txt", "bet07", "deductions", "deduction", "totDeduction"]

/-- Net-amount alias list (part_004 line 230). -/
def netKeys : List Chars :=
  keylist ["bet08Txt", "bet08", "net", "netAmt", "totNet", "payAmt"]

/-- Currency alias list (part_004 line 232). -/
def currencyKeys : List Chars := keylist ["waers", "currency", "curr", "currCd"]

/-- Sequence-id alias list (part_004 line 233). -/
def seqnrKeys : List Chars :=
  keylist ["seqnr", "seqNo", "seq", "seqnrTxt", "seqno"]

/-- Period-begin alias list (part_004 line 234). -/
def fpbegKeys : List Chars :=
  keylist ["fpbeg", "fpBeg", "fromDate", "begda", "fpbegTxt"]

/-- Period-end alias list (part_004 line 235). -/
def fpendKeys : List Chars :=
  keylist ["fpend", "fpEnd", "toDate", "endda", "fpendTxt"]

/-- Canonical transaction shape (`Txn` in part_004 lines 15–28). -/
structure Txn where
  year : Int
  month : Int
  date : Chars
  category : Chars
  group : Chars
  gross : Int
  deductions : Int
  net : Int
  currency : Chars
  seqnr : Chars
  fpbeg : Chars
  fpend : Chars
deriving DecidableEq, Repr

/-- JS `String(x ?? dflt)` where `dflt` is a string default: the nullish
coalescing applies when `firstPresent` returned `undefined`. -/
def coalesceStr (v : Option JValue) (dflt : Chars) : Chars :=
  match v with
  | none => dflt
  | some x => jsToString x

/-- Construction of one `Txn` from one raw record (the `map` body of
`normalizeRows`, part_004 lines 181–236): date `||` chain, trimmed string
fields with their defaults, money fields through `parseIntMoney`, period
bounds through `normalizeDate`. -/
def txnOfRow (year month : Int) (row : Rec) : Txn :=
  let d1 := normalizeDate (firstPresent row dateKeys)
  let d2 := normalizeDate (firstPresent row dateFallbackKeys)
  let ddflt := intToChars year ++ '-' :: (z2 month ++ s2c "-01")
  let cat := jsTrim (coalesceStr (firstPresent row categoryKeys) (s2c "UNKNOWN"))
  let cur := jsTrim (coalesceStr (firstPresent row currencyKeys) (s2c "KRW"))
  { year := year
    month := month
    date := if d1 ≠ [] then d1 else if d2 ≠ [] then d2 else ddflt
    category := if cat = [] then s2c "UNKNOWN" else cat
    group := jsTrim (coalesceStr (firstPresent row groupKeys) [])
    gross := parseIntMoney (firstPresent row grossKeys)
    deductions := parseIntMoney (firstPresent row deductionsKeys)
    net := parseIntMoney (firstPresent row netKeys)
    currency := if cur = [] then s2c "KRW" else cur
    seqnr := jsTrim (coalesceStr (firstPresent row seqnrKeys) [])
    fpbeg := normalizeDate (firstPresent row fpbegKeys)
    fpend := normalizeDate (firstPresent row fpendKeys) }

/-- Translation of `normalizeRows` (part_004 lines 178–237).  An entry of
`rows` is `some r` for a JS object with fields `r` (an array entry is
`some []`, since `typeof` calls arrays objects but none of the alias keys
exist on them) and `none` for `null` or a non-object primitive; the filter
`row !== null && typeof row === 'object'` drops exactly the `none` entries. -/
def normalizeRows (year month : Int) (rows : List (Option Rec)) : List Txn :=
  (rows.filterMap id).map (txnOfRow year month)

/-- Summary shape (part_004 lines 32–37). -/
structure Summary where
  gross : Int
  deductions : Int
  net : Int
  count : Nat
deriving DecidableEq, Repr

/-- Translation of `computeSummary` (part_004 lines 239–249): a left fold
accumulating the three totals and the count from zero. -/
def computeSummary (transactions : List Txn) : Summary :=
  transactions.foldl
    (fun acc txn =>
      ⟨acc.gross + txn.gross, acc.deductions + txn.deductions,
       acc.net + txn.net, acc.count + 1⟩)
    ⟨0, 0, 0, 0⟩

/-- JSON values as produced by `JSON.parse`.  Arrays and objects are
cons-encoded (chains ending in `jarrNil` / `jobjNil`) so every consumer is
structurally recursive and kernel-computable.  Numbers are restricted to
integer literals (the portal's numeric payloads are integral; float literals
are outside the model). -/
inductive Json where
  | jnull
  | jbool (b : Bool)
  | jnum (n : Int)
  | jstr (s : Chars)
  | jarrNil
  | jarrCons (head : Json) (tail : Json)
  | jobjNil
  | jobjCons (key : Chars) (val : Json) (tail : Json)
deriving DecidableEq, Repr

/-- Opening brace character (written by code to keep literals brace-free). -/
def lbr : Char := Char.ofNat 123

/-- Closing brace character. -/
def rbr : Char := Char.ofNat 125

/-- JSON insignificant whitespace. -/
def jsonWs (c : Char) : Bool := c = ' ' || c = '\t' || c = '\n' || c = '\r'

/-- Leading-whitespace removal inside the JSON grammar. -/
def skipWs (l : Chars) : Chars := l.dropWhile jsonWs

/-- Four hex digits of a `\u` escape. -/
def parseHex4 (l : Chars) : Option (Nat × Chars) :=
  match l with
  | a :: b :: c :: d :: rest =>
    match hexVal a, hexVal b, hexVal c, hexVal d with
    | some x, some y, some z, some w => some (((x * 16 + y) * 16 + z) * 16 + w, rest)
    | _, _, _, _ => none
  | _ => none

/-- Body of a JSON string after the opening quote, handling the escape
sequences of the JSON grammar (`\u` escapes map through `Char.ofNat`;
surrogate pairing is outside the model).  Fuel bounds the recursion. -/
def parseJStr : Nat → Chars → Option (Chars × Chars)
  | 0, _ => none
  | _ + 1, [] => none
  | fuel + 1, c :: rest =>
    if c = '"' then some ([], rest)
    else if c = '\\' then
      match rest with
      | [] => none
      | esc :: r2 =>
        let cont := fun (ch : Char) (r : Chars) =>
          (parseJStr fuel r).map (fun p => (ch :: p.1, p.2))
        if esc = '"' then cont '"' r2
        else if esc = '\\' then cont '\\' r2
        else if esc = '/' then cont '/' r2
        else if esc = 'b' then cont (Char.ofNat 8) r2
        else if esc = 'f' then cont (Char.ofNat 12) r2
        else if esc = 'n' then cont '\n' r2
        else if esc = 'r' then cont '\r' r2
        else if esc = 't' then cont '\t' r2
        else if esc = 'u' then
          match parseHex4 r2 with
          | some (n, r3) => cont (Char.ofNat n) r3
          | none => none
        else none
    else (parseJStr fuel rest).map (fun p => (c :: p.1, p.2))

/-- JSON number token, restricted to integer literals: `-`? (`0` |
nonzero-digit digits), rejecting a leading zero before further digits and any
fraction or exponent (the model boundary on numbers). -/
def parseJInt (l : Chars) : Option (Int × Chars) :=
  let (sgn, r) := match l with
    | '-' :: r => ((-1 : Int), r)
    | r => ((1 : Int), r)
  match r with
  | [] => none
  | c :: rest =>
    if c = '0' then
      match rest with
      | d :: _ =>
        if isDig d || d = '.' || d = 'e' || d = 'E' then none else some (0, rest)
      | [] => some (0, [])
    else if isDig c then
      let ds := (c :: rest).takeWhile isDig
      let tail := (c :: rest).dropWhile isDig
      match tail with
      | d :: _ =>
        if d = '.' || d = 'e' || d = 'E' then none
        else some (sgn * (natOfDigits ds : Int), tail)
      | [] => some (sgn * (natOfDigits ds : Int), [])
    else none

/-- Parse positions of the JSON grammar: one value, the continuation of an
array after an element, or the continuation of an object after a field. -/
inductive PMode where
  | value
  | arrTail
  | objTail
deriving DecidableEq, Repr

/-- Recursive-descent JSON reader, one function over fuel so the recursion is
structural.  `value` reads one JSON value; `arrTail` reads `, value …` or `]`;
`objTail` reads `, "key": value …` or the closing brace. -/
def parseJ : Nat → PMode → Chars → Option (Json × Chars)
  | 0, _, _ => none
  | fuel + 1, .value, l =>
    match skipWs l with
    | [] => none
    | 'n' :: 'u' :: 'l' :: 'l' :: r => some (.jnull, r)
    | 't' :: 'r' :: 'u' :: 'e' :: r => some (.jbool true, r)
    | 'f' :: 'a' :: 'l' :: 's' :: 'e' :: r => some (.jbool false, r)
    | '"' :: r => (parseJStr fuel r).map (fun p => (.jstr p.1, p.2))
    | '[' :: r =>
      (match skipWs r with
        | ']' :: r2 => some (.jarrNil, r2)
        | _ =>
          match parseJ fuel .value r with
          | none => none
          | some (v, r1) =>
            match parseJ fuel .arrTail r1 with
            | some (tl, r2) => some (.jarrCons v tl, r2)
            | none => none)
    | c :: r =>
      if c = lbr then
        match skipWs r with
        | d :: r2 =>
          if d = rbr then some (.jobjNil, r2)
          else if d = '"' then
            match parseJStr fuel r2 with
            | none => none
            | some (k, r3) =>
              match skipWs r3 with
              | ':' :: r4 =>
                match parseJ fuel .value r4 with
                | none => none
                | some (v, r5) =>
                  match parseJ fuel .objTail r5 with
                  | some (tl, r6) => some (.jobjCons k v tl, r6)
                  | none => none
              | _ => none
          else none
        | [] => none
      else (parseJInt (c :: r)).map (fun p => (.jnum p.1, p.2))
  | fuel + 1, .arrTail, l =>
    match skipWs l with
    | ',' :: r =>
      (match parseJ fuel .value r with
        | none => none
        | some (v, r1) =>
          match parseJ fuel .arrTail r1 with
          | some (tl, r2) => some (.jarrCons v tl, r2)
          | none => none)
    | ']' :: r => some (.jarrNil, r)
    | _ => none
  | fuel + 1, .objTail, l =>
    match skipWs l with
    | ',' :: r =>
      (match skipWs r with
        | '"' :: r2 =>
          match parseJStr fuel r2 with
          | none => none
          | some (k, r3) =>
            match skipWs r3 with
            | ':' :: r4 =>
              match parseJ fuel .value r4 with
              | none => none
              | some (v, r5) =>
                match parseJ fuel .objTail r5 with
                | some (tl, r6) => some (.jobjCons k v tl, r6)
                | none => none
            | _ => none
        | _ => none)
    | c :: r => if c = rbr then some (.jobjNil, r) else none
    | [] => none

/-- Model of `JSON.parse` (as called by `parseJson` in part_004 lines
377–379): `none` models a thrown `SyntaxError`. -/
def jsonParse (l : Chars) : Option Json :=
  match parseJ (l.length + 1) .value l with
  | some (j, rest) => if skipWs rest = [] then some j else none
  | none => none

/-- Conversion of a parsed JSON value into the loosely-typed value model. -/
def jsonToJValue : Json → JValue
  | .jnull => .vnull
  | .jbool b => .vbool b
  | .jnum n => .vint n
  | .jstr s => .vstr s
  | .jarrNil => .varrNil
  | .jarrCons h t => .varrCons (jsonToJValue h) (jsonToJValue t)
  | .jobjNil => .vobjNil
  | .jobjCons k v t => .vobjCons k (jsonToJValue v) (jsonToJValue t)

/-- Property read on a parsed JSON value: the last binding of `key` on an
object (later duplicates from `JSON.parse` overwrite earlier ones), JS
`undefined` (`none`) on anything else. -/
def jGetJ : Json → Chars → Option Json
  | .jobjCons k v t, key =>
    (match jGetJ t key with
      | some w => some w
      | none => if k = key then some v else none)
  | _, _ => none

/-- Elements of a cons-encoded JSON array. -/
def jarrToList : Json → List Json
  | .jarrCons h t => h :: jarrToList t
  | _ => []

/-- Field list of a cons-encoded JSON object, values converted to `JValue`. -/
def objFields : Json → List (Chars × JValue)
  | .jobjCons k v t => (k, jsonToJValue v) :: objFields t
  | _ => []

/-- One row of the detail array as `normalizeRows` receives it: objects keep
their fields, arrays act as field-free records (`typeof` calls them objects
but no alias key exists on them), anything else is a dropped entry. -/
def rowToRec : Json → Option Rec
  | .jobjNil => some []
  | .jobjCons k v t => some (objFields (.jobjCons k v t))
  | .jarrNil => some []
  | .jarrCons _ _ => some []
  | _ => none

/-- Evaluation of `payload.result?.payDetails?.payDetails ?? []` followed by
the array demand of `rows.filter` (part_004 lines 433–436): `none` models a
thrown `TypeError` (property read on `null`, or `.filter` on a non-array);
`some rows` is the row array, empty when the chain was nullish. -/
def extractPayloadRows (payload : Json) : Option (List Json) :=
  match payload with
  | .jnull => none
  | _ =>
    let r1 := jGetJ payload (s2c "result")
    let r2 := match r1 with
      | none => none
      | some .jnull => none
      | some v => jGetJ v (s2c "payDetails")
    let r3 := match r2 with
      | none => none
      | some .jnull => none
      | some v => jGetJ v (s2c "payDetails")
    match r3 with
    | none => some []
    | some .jnull => some []
    | some .jarrNil => some []
    | some (.jarrCons h t) => some (jarrToList (.jarrCons h t))
    | some _ => none

/-- Full payload handling of one period's response body: `JSON.parse`, the
navigation chain, and the per-row object conversion; `none` models any
exception thrown there (caught by the per-period handler). -/
def parsePayload (body : Chars) : Option (List (Option Rec)) :=
  match jsonParse body with
  | none => none
  | some payload =>
    match extractPayloadRows payload with
    | none => none
    | some rows => some (rows.map rowToRec)

/-- Job lifecycle states (part_004 line 30). -/
inductive JobStatus where
  | pending
  | authWait
  | fetching
  | completed
  | error
deriving DecidableEq, Repr

/-- Mutable job state (part_004 lines 49–60).  The opaque id (allocated by
`crypto.randomUUID`) and the two timestamps are outside this trace model; the
last-update timestamp is modelled separately where eviction needs it. -/
structure JobState where
  status : JobStatus
  message : Chars
  totalMonths : Nat
  processedMonths : Nat
  transactions : List Txn
  summary : Option Summary
  errorMsg : Option Chars
deriving DecidableEq, Repr

/-- Read-only projection returned to pollers (part_004 lines 62–71). -/
structure JobSnapshot where
  status : JobStatus
  message : Chars
  totalMonths : Nat
  processedMonths : Nat
  summary : Option Summary
  errorMsg : Option Chars
  transactions : Option (List Txn)
deriving DecidableEq, Repr

/-- Translation of `toSnapshot` (part_004 lines 466–478) on a present job
(the `undefined` guard lifts pointwise to `Option`): every scalar field is
copied, the transaction collection is exposed only in the completed state. -/
def toSnapshot (job : JobState) : JobSnapshot :=
  { status := job.status
    message := job.message
    totalMonths := job.totalMonths
    processedMonths := job.processedMonths
    summary := job.summary
    errorMsg := job.errorMsg
    transactions := if job.status = .completed then some job.transactions else none }

/-- Caller-supplied scrape request (part_004 lines 39–47). -/
structure ScrapeParams where
  username : Chars
  password : Chars
  pernr : Chars
  years : List Int
  months : List Int
  waitAuthSeconds : Nat
  pollIntervalSeconds : Nat
deriving Repr

/-- Outcome of one probing HTTP call, as the code observes it: the response
status code plus the Page Scanner's token/header extraction on the body (the
`cheerio` meta lookup is a library call, abstracted to its result), or a
thrown transport error with its message. -/
structure ProbeResp where
  code : Nat
  token : Option Chars
  header : Option Chars
deriving DecidableEq, Repr

/-- One network call that either responds or throws. -/
inductive NetCall where
  | resp (r : ProbeResp)
  | fail (msg : Chars)
deriving DecidableEq, Repr

/-- Environment of one `waitForFido` probe cycle: the init page, the notice
popup, and the login-success endpoint, in the order the code probes them. -/
structure CycleEnv where
  init : NetCall
  notice : NetCall
  success : NetCall
deriving DecidableEq, Repr

/-- Body-returning HTTP call that either responds with text or throws. -/
inductive HttpBody where
  | ok (body : Chars)
  | fail (msg : Chars)
deriving DecidableEq, Repr

/-- Environment of one collection period: the first payroll-detail POST, the
init-page GET of `fetchLatestCsrf` (token/header already extracted), and the
retried POST.  Later components are consulted only on the paths that reach
them. -/
structure PeriodEnv where
  first : HttpBody
  refresh : NetCall
  retry : HttpBody
deriving DecidableEq, Repr

/-- Outcome of `postLoginProcess`: success, a body matching the
login-failure phrase patterns (the regex battery abstracted to its verdict),
or a thrown transport error. -/
inductive LoginOutcome where
  | okL
  | failDetect
  | netFail (msg : Chars)
deriving DecidableEq, Repr

/-- Whole-job environment: outcomes of every external interaction one
`processJob` run can perform.  The approval-poll deadline is modelled by the
finite list of probe cycles that fit before it elapses. -/
structure Env where
  loginPage : NetCall
  login : LoginOutcome
  fido : List CycleEnv
  period : Nat → PeriodEnv

/-- JS truthiness of an extracted token (`if (initToken)`): present and
non-empty. -/
def truthyTok : Option Chars → Option Chars
  | some t => if t = [] then none else some t
  | none => none

/-- Header-name fallback `headerName ?? 'X-CSRF-TOKEN'`. -/
def hdrOr (h : Option Chars) : Chars := h.getD (s2c "X-CSRF-TOKEN")

/-- Initial message of a created job (part_004 line 486). -/
def msgPreparing : Chars := s2c "작업을 준비 중입니다..."

/-- Message of the first `processJob` update (part_004 line 386). -/
def msgConnecting : Chars := s2c "로그인 페이지에 접속합니다..."

/-- Error thrown when the login page carries no token (part_004 line 393). -/
def msgNoCsrf : Chars := s2c "로그인 페이지에서 _csrf 토큰을 찾을 수 없습니다."

/-- Message of the auth-wait update (part_004 line 398). -/
def msgSubmitted : Chars := s2c "로그인 정보를 제출했습니다. 휴대폰에서 승인을 진행해 주세요."

/-- Error thrown on a detected login failure (part_004 line 359). -/
def msgLoginFailed : Chars := s2c "로그인에 실패했습니다. 아이디 또는 비밀번호를 다시 확인해 주세요."

/-- Message of the fetching transition (part_004 line 290). -/
def msgApproved : Chars := s2c "모바일 인증이 확인되었습니다. 급여 데이터를 수집합니다."

/-- Message recorded by a successful `fetchLatestCsrf` (part_004 line 372). -/
def msgTokenRefreshed : Chars := s2c "최신 인증 토큰을 갱신했습니다. 데이터를 계속 수집합니다."

/-- Error thrown by `fetchLatestCsrf` without a token (part_004 line 369). -/
def msgRefreshFail : Chars := s2c "Unable to extract _csrf token after approval."

/-- Error thrown when the retried POST is again HTML (part_004 line 428). -/
def msgHtmlAgain : Chars := s2c "JSON 응답을 기대했지만 HTML이 반환되었습니다."

/-- Initial `lastError` of the approval poll (part_004 line 280). -/
def msgNoPollYet : Chars := s2c "no poll yet"

/-- Prefix of the approval-timeout error (part_004 line 333). -/
def msgTimeoutLead : Chars := s2c "Mobile approval timed out. Last status: "

/-- Prefix of the top-level failure message (part_004 line 460). -/
def msgFailLead : Chars := s2c "작업이 실패했습니다: "

/-- Stand-in for the engine-generated text of a `SyntaxError` from
`JSON.parse` or a `TypeError` from the payload navigation — the code only
interpolates `error.message`, whose exact wording is engine-specific. -/
def msgJsonErr : Chars := s2c "Unexpected token in JSON"

/-- Poll-status summary recorded after a tokenless cycle (part_004 line 327). -/
def pollMsg (a b c : Nat) : Chars :=
  s2c "poll: init=" ++ natToChars a ++ s2c " notice=" ++ natToChars b ++
    s2c " success=" ++ natToChars c

/-- Progress message written before each period fetch (part_004 line 412). -/
def progressMsg (processed total : Nat) (year month : Int) : Chars :=
  s2c "데이터 처리중... (" ++ natToChars processed ++ '/' :: natToChars total ++
    s2c ") → " ++ intToChars year ++ '-' :: z2 month

/-- Per-period failure message (part_004 line 440). -/
def periodErrMsg (processed total : Nat) (year month : Int) (message : Chars) : Chars :=
  s2c "오류 발생 (" ++ natToChars processed ++ '/' :: natToChars total ++
    s2c ") → " ++ intToChars year ++ '-' :: z2 month ++ s2c ": " ++ message

/-- Completion message (part_004 line 450). -/
def completedMsg (count : Nat) : Chars :=
  s2c "데이터 처리 완료! 총 " ++ natToChars count ++ s2c "건을 가져왔습니다."

/-- Error-state patch applied by the top-level catch (part_004 lines
456–463). -/
def errState (s : JobState) (m : Chars) : JobState :=
  { s with status := .error, message := msgFailLead ++ m, errorMsg := some m }

/-- One `waitForFido` probe cycle (part_004 lines 281–331): the three
endpoints are tried in order, the first truthy token wins; a throw anywhere
skips the rest of the cycle; a full tokenless cycle records the three status
codes.  Returns the found (token, header) or the new `lastError`. -/
def cycleStep (c : CycleEnv) : (Chars × Chars) ⊕ Chars :=
  match c.init with
  | .fail m => .inr m
  | .resp r1 =>
    match truthyTok r1.token with
    | some t => .inl (t, hdrOr r1.header)
    | none =>
      match c.notice with
      | .fail m => .inr m
      | .resp r2 =>
        match truthyTok r2.token with
        | some t => .inl (t, hdrOr r2.header)
        | none =>
          match c.success with
          | .fail m => .inr m
          | .resp r3 =>
            match truthyTok r3.token with
            | some t => .inl (t, hdrOr r3.header)
            | none => .inr (pollMsg r1.code r2.code r3.code)

/-- The `waitForFido` polling loop (part_004 lines 274–334) over the cycles
that fit before the deadline, threading `lastError`; an exhausted list is the
elapsed deadline, producing the timeout error text. -/
def fidoLoop : List CycleEnv → Chars → Except Chars (Chars × Chars)
  | [], lastError => .error (msgTimeoutLead ++ lastError)
  | c :: rest, _lastError =>
    match cycleStep c with
    | .inl th => .ok th
    | .inr m => fidoLoop rest m

/-- Externally visible actions of one period, for stating the retry policy. -/
inductive Act where
  | post
  | refreshTok
deriving DecidableEq, Repr

/-- Result of one period's try block: produced transactions, whether the
refresh-success message update fired, the caught error text if any, and the
transcript of POSTs/refreshes performed. -/
structure PeriodOut where
  txns : List Txn
  midMsg : Bool
  errText : Option Chars
  acts : List Act
deriving Repr

/-- One period of the collection loop (the try block of part_004 lines
414–442): POST; on an HTML body refresh the token once (`fetchLatestCsrf`)
and retry once; an HTML retry throws; otherwise parse the payload and
normalize its rows.  Every throw is caught and reported as `errText`. -/
def processPeriod (year month : Int) (e : PeriodEnv) : PeriodOut :=
  match e.first with
  | .fail m => ⟨[], false, some m, [.post]⟩
  | .ok b1 =>
    if isHtml b1 then
      match e.refresh with
      | .fail m => ⟨[], false, some m, [.post, .refreshTok]⟩
      | .resp r =>
        match truthyTok r.token with
        | none => ⟨[], false, some msgRefreshFail, [.post, .refreshTok]⟩
        | some _ =>
          match e.retry with
          | .fail m => ⟨[], true, some m, [.post, .refreshTok, .post]⟩
          | .ok b2 =>
            if isHtml b2 then
              ⟨[], true, some msgHtmlAgain, [.post, .refreshTok, .post]⟩
            else
              match parsePayload b2 with
              | none => ⟨[], true, some msgJsonErr, [.post, .refreshTok, .post]⟩
              | some rows =>
                ⟨normalizeRows year month rows, true, none, [.post, .refreshTok, .post]⟩
    else
      match parsePayload b1 with
      | none => ⟨[], false, some msgJsonErr, [.post]⟩
      | some rows => ⟨normalizeRows year month rows, false, none, [.post]⟩

/-- Requested periods in the code's year-then-month iteration order. -/
def periodPairs (p : ScrapeParams) : List (Int × Int) :=
  (p.years.map (fun y => p.months.map (fun mo => (y, mo)))).flatten

/-- The per-period half of the collection loop (part_004 lines 406–445):
for each period, the eager progress update, then the period's try block,
appending any mid-loop message updates and the caught-error update; returns
the job states written and the transactions accumulated (held in the local
`all` array, not in the job state). -/
def runPeriods (env : Nat → PeriodEnv) (total : Nat) :
    List (Int × Int) → Nat → JobState → List JobState × List Txn
  | [], _, _ => ([], [])
  | (y, mo) :: rest, i, s =>
    let sU : JobState :=
      { s with processedMonths := i + 1, totalMonths := total,
               message := progressMsg (i + 1) total y mo }
    let out := processPeriod y mo (env i)
    let s1 : JobState :=
      if out.midMsg then { sU with message := msgTokenRefreshed } else sU
    let s2 : JobState :=
      match out.errText with
      | some m => { s1 with message := periodErrMsg (i + 1) total y mo m }
      | none => s1
    let here := [sU] ++ (if out.midMsg then [s1] else []) ++
      (match out.errText with
        | some _ => [s2]
        | none => [])
    let restOut := runPeriods env total rest (i + 1) s2
    (here ++ restOut.1, out.txns ++ restOut.2)

/-- Translation of `processJob` (part_004 lines 381–464) as the sequence of
job states its `updateJob` calls write after creation: login-page fetch and
token check, auth-wait update, login submission, approval polling, the
collection loop, and the completed update — with the top-level catch turning
any thrown phase error into the error state. -/
def processJob (p : ScrapeParams) (env : Env) (s0 : JobState) : List JobState :=
  let total := p.years.length * p.months.length
  let s1 : JobState := { s0 with status := .pending, message := msgConnecting }
  match env.loginPage with
  | .fail m => [s1, errState s1 m]
  | .resp r =>
    match truthyTok r.token with
    | none => [s1, errState s1 msgNoCsrf]
    | some _ =>
      let s2 : JobState := { s1 with status := .authWait, message := msgSubmitted }
      match env.login with
      | .netFail m => [s1, s2, errState s2 m]
      | .failDetect => [s1, s2, errState s2 msgLoginFailed]
      | .okL =>
        match fidoLoop env.fido msgNoPollYet with
        | .error m => [s1, s2, errState s2 m]
        | .ok _ =>
          let s3 : JobState := { s2 with status := .fetching, message := msgApproved }
          let loopOut := runPeriods env.period total (periodPairs p) 0 s3
          let summary := computeSummary loopOut.2
          let sLast := loopOut.1.getLast?.getD s3
          let sDone : JobState :=
            { sLast with status := .completed,
                         message := completedMsg summary.count,
                         transactions := loopOut.2, summary := some summary,
                         processedMonths := total, totalMonths := total }
          [s1, s2, s3] ++ loopOut.1 ++ [sDone]

/-- Initial job state written by `startPayrollJob` (part_004 lines 483–492). -/
def initJobState (p : ScrapeParams) : JobState :=
  { status := .pending, message := msgPreparing,
    totalMonths := p.years.length * p.months.length, processedMonths := 0,
    transactions := [], summary := none, errorMsg := none }

/-- Full state history of one job: the created state followed by every state
the background task writes. -/
def jobTrace (p : ScrapeParams) (env : Env) : List JobState :=
  initJobState p :: processJob p env (initJobState p)

/-- Registry entry: a job state plus its last-update timestamp (ms). -/
structure StoredJob where
  state : JobState
  updatedAt : Int
deriving DecidableEq, Repr

/-- Translation of `cleanupOldJobs` (part_004 lines 512–520): iterate the
store, deleting every job strictly older than the threshold. -/
def cleanupOldJobs (now maxAgeMs : Int) :
    List (Chars × StoredJob) → List (Chars × StoredJob)
  | [] => []
  | entry :: rest =>
    if now - entry.2.updatedAt > maxAgeMs then cleanupOldJobs now maxAgeMs rest
    else entry :: cleanupOldJobs now maxAgeMs rest

/-- Default eviction threshold `1000 * 60 * 30` ms (part_004 line 512). -/
def defaultMaxAgeMs : Int := 1000 * 60 * 30

/-- Union of every alias list consulted by `txnOfRow`. -/
def allAliasKeys : List Chars :=
  dateKeys ++ dateFallbackKeys ++ categoryKeys ++ groupKeys ++ grossKeys ++
    deductionsKeys ++ netKeys ++ currencyKeys ++ seqnrKeys ++ fpbegKeys ++
    fpendKeys

/-- Transaction produced from a record presenting no alias at all: the
defaults the spec names (`"UNKNOWN"` category, empty group/sequence, zero
money fields, `"KRW"` currency, first-of-month date). -/
def defaultTxn (y mo : Int) : Txn :=
  { year := y, month := mo,
    date := intToChars y ++ '-' :: (z2 mo ++ s2c "-01"),
    category := s2c "UNKNOWN", group := [], gross := 0, deductions := 0,
    net := 0, currency := s2c "KRW", seqnr := [], fpbeg := [], fpend := [] }

/-- Concrete record for the C8 witness: both the primary `bet01Txt` and the
fallback `gross` aliases are present. -/
def c8rec : Rec :=
  [(s2c "gross", .vstr (s2c "2")), (s2c "bet01Txt", .vstr (s2c "1"))]

/-- Tail of the gross alias list after its primary key. -/
def c8ks2 : List Chars :=
  [s2c "bet01", s2c "gross", s2c "grossAmt", s2c "totGross"]

/-- Concrete record for the C1 witness: a hyphenated date next to a
minus-free gross amount. -/
def c1rec : Rec :=
  [(s2c "rqdat", .vstr (s2c "2024-01-15")), (s2c "gross", .vstr (s2c "100"))]

/-- Transactions accumulated by the collection loop from period index `i`
(the contents of the local `all` array). -/
def collectedTxnsFrom (env : Nat → PeriodEnv) : List (Int × Int) → Nat → List Txn
  | [], _ => []
  | (y, mo) :: rest, i =>
    (processPeriod y mo (env i)).txns ++ collectedTxnsFrom env rest (i + 1)

/-- Transactions the whole job accumulates. -/
def collectedTxns (p : ScrapeParams) (env : Env) : List Txn :=
  collectedTxnsFrom env.period (periodPairs p) 0

/-- The `lastError` value threaded through a tokenless run of the approval
poll. -/
def lastProbeErr : List CycleEnv → Chars → Chars
  | [], le => le
  | c :: rest, le =>
    match cycleStep c with
    | .inl _ => lastProbeErr rest le
    | .inr m => lastProbeErr rest m

/-- Final state of a job whose login and approval succeed. -/
def finalState (p : ScrapeParams) (env : Env) : JobState :=
  { status := .completed,
    message := completedMsg (computeSummary (collectedTxns p env)).count,
    totalMonths := p.years.length * p.months.length,
    processedMonths := p.years.length * p.months.length,
    transactions := collectedTxns p env,
    summary := some (computeSummary (collectedTxns p env)),
    errorMsg := none }

/-- Final state of a job whose approval poll times out with `lastError`
text `m`. -/
def timeoutState (p : ScrapeParams) (m : Chars) : JobState :=
  { status := .error, message := msgFailLead ++ m,
    totalMonths := p.years.length * p.months.length, processedMonths := 0,
    transactions := [], summary := none, errorMsg := some m }

/-- Concrete one-period scrape request used by the trace witnesses. -/
def wParams : ScrapeParams :=
  { username := s2c "user", password := s2c "pw", pernr := s2c "100",
    years := [2024], months := [1], waitAuthSeconds := 90,
    pollIntervalSeconds := 3 }

/-- Probe response carrying a token. -/
def wTokResp : ProbeResp := { code := 200, token := some (s2c "tok"), header := none }

/-- Probe cycle whose first endpoint already yields the token. -/
def wCycleOk : CycleEnv :=
  { init := .resp wTokResp, notice := .resp wTokResp, success := .resp wTokResp }

/-- Full tokenless probe cycle: three responses, no token anywhere. -/
def wCycleMiss : CycleEnv :=
  { init := .resp { code := 200, token := none, header := none },
    notice := .resp { code := 302, token := none, header := none },
    success := .resp { code := 404, token := none, header := none } }

/-- Period environment answering JSON at once. -/
def wPeriodJson : PeriodEnv :=
  { first := .ok (s2c "\x7b\"ok\":true\x7d"), refresh := .resp wTokResp,
    retry := .ok (s2c "\x7b\"ok\":true\x7d") }

/-- Period environment answering HTML first, then JSON after the token
refresh. -/
def wPeriodStale : PeriodEnv :=
  { first := .ok (s2c "<html><body>session expired</body></html>"),
    refresh := .resp wTokResp, retry := .ok (s2c "\x7b\"ok\":true\x7d") }

/-- Whole-job environment of a run that completes. -/
def wEnvOk : Env :=
  { loginPage := .resp wTokResp, login := .okL, fido := [wCycleOk],
    period := fun _ => wPeriodStale }

/-- Whole-job environment whose approval poll never finds a token before
the deadline. -/
def wEnvTimeout : Env :=
  { loginPage := .resp wTokResp, login := .okL, fido := [wCycleMiss],
    period := fun _ => wPeriodJson }

/-! ### Claim C9: stale-job eviction -/

/-- Sample stored state for concrete eviction instances. -/
def sampleJobState : JobState :=
  { status := .pending, message := [], totalMonths := 0, processedMonths := 0,
    transactions := [], summary := none, errorMsg := none }

/-- C9.  `cleanupOldJobs` removes exactly the jobs whose last-update
timestamp is more than `maxAgeMs` in the past and retains all others; in
particular, with the default 30-minute threshold, a job last updated 31
minutes ago is removed while one last updated 29 minutes ago is retained. -/
theorem claim_c9_evictStale :
    (∀ (now maxAge : Int) (store : List (Chars × StoredJob)) (e : Chars × StoredJob),
       e ∈ cleanupOldJobs now maxAge store ↔
         e ∈ store ∧ now - e.2.updatedAt ≤ maxAge) ∧
    cleanupOldJobs 1860000 defaultMaxAgeMs
        [(s2c "old", ⟨sampleJobState, 0⟩), (s2c "fresh", ⟨sampleJobState, 120000⟩)] =
      [(s2c "fresh", ⟨sampleJobState, 120000⟩)] := by
  constructor
  · intro now maxAge store e
    induction store with
    | nil => simp [cleanupOldJobs]
    | cons hd tl ih =>
      by_cases h : now - hd.2.updatedAt > maxAge
      · simp only [cleanupOldJobs, if_pos h, ih, List.mem_cons]
        constructor
        · rintro ⟨he, hle⟩
          exact ⟨Or.inr he, hle⟩
        · rintro ⟨he | he, hle⟩
          · subst he; omega
          · exact ⟨he, hle⟩
      · simp only [cleanupOldJobs, if_neg h, List.mem_cons, ih]
        constructor
        · rintro (he | ⟨he, hle⟩)
          · subst he; exact ⟨Or.inl rfl, by omega⟩
          · exact ⟨Or.inr he, hle⟩
        · rintro ⟨he | he, hle⟩
          · subst he; exact Or.inl rfl
          · exact Or.inr ⟨he, hle⟩
  · decide

/-! ### Claim C10: dropped rows and stamped period -/

/-- C10.  `normalizeRows` produces exactly one `Txn` per object row (entries
that are `null` or not objects are dropped silently and contribute nothing),
and every produced `Txn` carries the requested year and month, whatever the
raw record contains. -/
theorem claim_c10_rowFilter :
    (∀ (y mo : Int) (rows : List (Option Rec)),
       (normalizeRows y mo rows).length = (rows.filterMap id).length) ∧
    (∀ (y mo : Int) (rows : List (Option Rec)),
       normalizeRows y mo (none :: rows) = normalizeRows y mo rows) ∧
    (∀ (y mo : Int) (rows : List (Option Rec)) (t : Txn),
       t ∈ normalizeRows y mo rows → t.year = y ∧ t.month = mo) := by
  refine ⟨?_, ?_, ?_⟩
  · intro y mo rows
    simp [normalizeRows]
  · intro y mo rows
    simp [normalizeRows]
  · intro y mo rows t ht
    simp only [normalizeRows, List.mem_map] at ht
    obtain ⟨r, _, rfl⟩ := ht
    exact ⟨rfl, rfl⟩

/-- Witness for C10 at a concrete input: one `null` entry and one record
carrying a year-like field; the null entry is dropped and the produced `Txn`
carries the requested period, not the record's. -/
theorem claim_c10_rowFilter_witness :
    (normalizeRows 2024 5 [none, some [(s2c "year", .vint 1999)]]).length =
        ([none, some [(s2c "year", .vint 1999)]].filterMap
          (id : Option Rec → Option Rec)).length ∧
    (txnOfRow 2024 5 [(s2c "year", .vint 1999)]).year = 2024 ∧
    (txnOfRow 2024 5 [(s2c "year", .vint 1999)]).month = 5 :=
  ⟨claim_c10_rowFilter.1 2024 5 [none, some [(s2c "year", .vint 1999)]],
   claim_c10_rowFilter.2.2 2024 5 [none, some [(s2c "year", .vint 1999)]]
     (txnOfRow 2024 5 [(s2c "year", .vint 1999)]) (by decide)⟩

/-! ### Claim C8: alias-order stability and defaults -/

/-- Auxiliary: `firstPresent` skips a block of keys none of which is
present. -/
theorem firstPresent_append_of_absent (r : Rec) :
    ∀ (ks₁ ks₂ : List Chars), (∀ k ∈ ks₁, present (recGet r k) = false) →
      firstPresent r (ks₁ ++ ks₂) = firstPresent r ks₂ := by
  intro ks₁
  induction ks₁ with
  | nil => intro ks₂ _; rfl
  | cons k ks ih =>
    intro ks₂ habs
    have hk : present (recGet r k) = false := habs k (List.mem_cons_self k ks)
    simp only [List.cons_append, firstPresent, hk]
    exact ih ks₂ (fun k' hk' => habs k' (List.mem_cons_of_mem k hk'))

/-- Auxiliary: a key list with no present key selects nothing. -/
theorem firstPresent_eq_none (r : Rec) :
    ∀ (ks : List Chars), (∀ k ∈ ks, present (recGet r k) = false) →
      firstPresent r ks = none := by
  intro ks habs
  have h := firstPresent_append_of_absent r ks [] habs
  simpa using h

/-- C8.  `firstPresent` is alias-order-stable: the first key of the ordered
list whose value is present wins, whatever comes after it; and a record in
which no alias of any logical field is present normalizes to the defined
defaults (`"UNKNOWN"` category, empty group and sequence id, `0` money
fields, `"KRW"` currency, first-of-month date). -/
theorem claim_c8_aliasOrder :
    (∀ (r : Rec) (ks₁ ks₂ : List Chars) (k : Chars),
       (∀ k' ∈ ks₁, present (recGet r k') = false) →
       present (recGet r k) = true →
       firstPresent r (ks₁ ++ k :: ks₂) = recGet r k) ∧
    (∀ (y mo : Int) (r : Rec),
       (∀ k ∈ allAliasKeys, present (recGet r k) = false) →
       normalizeRows y mo [some r] = [defaultTxn y mo]) := by
  constructor
  · intro r ks₁ ks₂ k habs hk
    rw [firstPresent_append_of_absent r ks₁ (k :: ks₂) habs]
    simp [firstPresent, hk]
  · intro y mo r habs
    have habs' : ∀ ks : List Chars, (∀ k ∈ ks, k ∈ allAliasKeys) →
        firstPresent r ks = none := by
      intro ks hsub
      exact firstPresent_eq_none r ks (fun k hk => habs k (hsub k hk))
    have hdate : firstPresent r dateKeys = none := by
      refine habs' _ (fun k hk => ?_)
      simp [allAliasKeys, hk]
    have hdateF : firstPresent r dateFallbackKeys = none := by
      refine habs' _ (fun k hk => ?_)
      simp [allAliasKeys, hk]
    have hcat : firstPresent r categoryKeys = none := by
      refine habs' _ (fun k hk => ?_)
      simp [allAliasKeys, hk]
    have hgroup : firstPresent r groupKeys = none := by
      refine habs' _ (fun k hk => ?_)
      simp [allAliasKeys, hk]
    have hgross : firstPresent r grossKeys = none := by
      refine habs' _ (fun k hk => ?_)
      simp [allAliasKeys, hk]
    have hded : firstPresent r deductionsKeys = none := by
      refine habs' _ (fun k hk => ?_)
      simp [allAliasKeys, hk]
    have hnet : firstPresent r netKeys = none := by
      refine habs' _ (fun k hk => ?_)
      simp [allAliasKeys, hk]
    have hcur : firstPresent r currencyKeys = none := by
      refine habs' _ (fun k hk => ?_)
      simp [allAliasKeys, hk]
    have hseq : firstPresent r seqnrKeys = none := by
      refine habs' _ (fun k hk => ?_)
      simp [allAliasKeys, hk]
    have hfpb : firstPresent r fpbegKeys = none := by
      refine habs' _ (fun k hk => ?_)
      simp [allAliasKeys, hk]
    have hfpe : firstPresent r fpendKeys = none := by
      refine habs' _ (fun k hk => ?_)
      simp [allAliasKeys, hk]
    simp only [normalizeRows, List.filterMap, List.map]
    simp [txnOfRow, hdate, hdateF, hcat, hgroup, hgross, hded, hnet, hcur,
      hseq, hfpb, hfpe, defaultTxn, normalizeDate, coalesceStr, parseIntMoney]
    decide

/-- Witness for C8: with both the primary `bet01Txt` and the fallback
`gross` aliases present, the primary wins; and the empty record yields the
default transaction. -/
theorem claim_c8_aliasOrder_witness :
    firstPresent c8rec ([] ++ s2c "bet01Txt" :: c8ks2) =
      recGet c8rec (s2c "bet01Txt") ∧
    normalizeRows 2024 3 [some []] = [defaultTxn 2024 3] :=
  ⟨claim_c8_aliasOrder.1 c8rec [] c8ks2 (s2c "bet01Txt") (by decide) (by decide),
   claim_c8_aliasOrder.2 2024 3 [] (by decide)⟩

/-! ### Claim C7: date normalization -/

/-- Digit characters are not whitespace. -/
theorem isWs_false_of_isDig {c : Char} (h : isDig c = true) : isWs c = false := by
  simp only [isWs, Bool.or_eq_false_iff, decide_eq_false_iff_not]
  refine ⟨⟨⟨?_, ?_⟩, ?_⟩, ?_⟩ <;> (rintro rfl; exact absurd h (by decide))

/-- Whitespace characters are not digits. -/
theorem isDig_false_of_isWs {c : Char} (h : isWs c = true) : isDig c = false := by
  simp only [isWs, Bool.or_eq_true, decide_eq_true_eq] at h
  rcases h with ((rfl | rfl) | rfl) | rfl <;> decide

/-- `dropWhile` is the identity when no element satisfies the predicate. -/
theorem dropWhile_eq_self_of_all {p : Char → Bool} {l : Chars}
    (h : ∀ c ∈ l, p c = false) : l.dropWhile p = l := by
  cases l with
  | nil => rfl
  | cons c rest =>
    exact List.dropWhile_cons_of_neg (by simp [h c (List.mem_cons_self c rest)])

/-- `jsTrim` is the identity on whitespace-free text. -/
theorem jsTrim_eq_self {l : Chars} (h : ∀ c ∈ l, isWs c = false) : jsTrim l = l := by
  unfold jsTrim
  rw [dropWhile_eq_self_of_all h,
    dropWhile_eq_self_of_all (fun c hc => h c (List.mem_reverse.mp hc)),
    List.reverse_reverse]

/-- Leading-whitespace removal does not change the digit content. -/
theorem filter_isDig_dropWhile_isWs (l : Chars) :
    (l.dropWhile isWs).filter isDig = l.filter isDig := by
  induction l with
  | nil => rfl
  | cons c rest ih =>
    by_cases hc : isWs c = true
    · rw [List.dropWhile_cons_of_pos (by simp [hc]), ih,
        List.filter_cons_of_neg (by simp [isDig_false_of_isWs hc])]
    · rw [List.dropWhile_cons_of_neg (by simp [hc])]

/-- Trimming does not change the digit content. -/
theorem filter_isDig_jsTrim (l : Chars) :
    (jsTrim l).filter isDig = l.filter isDig := by
  unfold jsTrim
  rw [List.filter_reverse, filter_isDig_dropWhile_isWs, List.filter_reverse,
    List.reverse_reverse, filter_isDig_dropWhile_isWs]

/-- The `[./] → -` replacement does not change the digit content. -/
theorem filter_isDig_dotSlash (l : Chars) :
    (dotSlashToDash l).filter isDig = l.filter isDig := by
  induction l with
  | nil => rfl
  | cons c rest ih =>
    show ((if c = '.' || c = '/' then '-' else c) :: dotSlashToDash rest).filter isDig
        = (c :: rest).filter isDig
    by_cases hc : (c = '.' || c = '/') = true
    · rw [if_pos hc]
      rcases Bool.or_eq_true _ _ |>.mp hc with h | h
      · rw [decide_eq_true_eq] at h
        subst h
        simpa using ih
      · rw [decide_eq_true_eq] at h
        subst h
        simpa using ih
    · rw [if_neg hc]
      by_cases hd : isDig c = true
      · rw [List.filter_cons_of_pos hd, List.filter_cons_of_pos hd, ih]
      · rw [List.filter_cons_of_neg (by simpa using hd),
          List.filter_cons_of_neg (by simpa using hd), ih]

/-- A string matching `YYYY-MM-DD` has exactly eight digit characters. -/
theorem matchesYMD_digCount {t : Chars} (h : matchesYMD t = true) :
    (t.filter isDig).length = 8 := by
  unfold matchesYMD at h
  split at h
  · rename_i a b c d h1 e f h2 g i
    simp only [Bool.and_eq_true, decide_eq_true_eq] at h
    obtain ⟨⟨⟨⟨⟨⟨⟨⟨⟨ha, hb⟩, hc⟩, hd⟩, hh1⟩, he⟩, hf⟩, hh2⟩, hg⟩, hi⟩ := h
    subst hh1; subst hh2
    simp [List.filter, ha, hb, hc, hd, he, hf, hg, hi,
      show isDig '-' = false by decide]
  · exact absurd h (by simp)

/-- Eight-digit-content strings are rebuilt as `YYYY-MM-DD` from their
digits. -/
theorem normalizeDate_of_digits8 {l : Chars}
    (h8 : (l.filter isDig).length = 8) :
    normalizeDate (some (.vstr l)) = hyphenate8 (l.filter isDig) := by
  have htrim := filter_isDig_jsTrim l
  have hne : ¬ jsTrim l = [] := by
    intro h0
    rw [h0] at htrim
    rw [← htrim] at h8
    simp at h8
  show normalizeDateRaw (jsTrim (jsToString (.vstr l))) = _
  show normalizeDateRaw (jsTrim l) = _
  unfold normalizeDateRaw
  rw [if_neg hne, htrim, if_pos h8]

/-- Strings without eight-digit content pass through trimmed but otherwise
unchanged. -/
theorem normalizeDate_of_not8 {l : Chars}
    (h8 : (l.filter isDig).length ≠ 8) :
    normalizeDate (some (.vstr l)) = jsTrim l := by
  have htrim := filter_isDig_jsTrim l
  show normalizeDateRaw (jsTrim l) = jsTrim l
  by_cases hne : jsTrim l = []
  · rw [hne]; rfl
  · unfold normalizeDateRaw
    rw [if_neg hne, htrim, if_neg h8]
    have hm : matchesYMD (dotSlashToDash (jsTrim l)) = false := by
      by_contra hmm1
      have hmt : matchesYMD (dotSlashToDash (jsTrim l)) = true := by
        revert hmm1; cases matchesYMD (dotSlashToDash (jsTrim l)) <;> simp
      have := matchesYMD_digCount hmt
      rw [filter_isDig_dotSlash, htrim] at this
      exact h8 this
    rw [if_neg (by simp [hm])]

/-- `hyphenate8` on a 4+2+2 split. -/
theorem hyphenate8_append {y m d : Chars} (hy : y.length = 4)
    (hm : m.length = 2) (_hd : d.length = 2) :
    hyphenate8 (y ++ m ++ d) = y ++ '-' :: m ++ '-' :: d := by
  unfold hyphenate8
  have h1 : (y ++ m ++ d).take 4 = y := by
    rw [List.append_assoc, List.take_left' hy]
  have h2 : (y ++ m ++ d).drop 4 = m ++ d := by
    rw [List.append_assoc, List.drop_left' hy]
  have h4 : (y ++ m ++ d).drop 6 = d := by
    rw [List.drop_left' (by simp [hy, hm])]
  rw [h1, h2, List.take_left' hm, h4]

/-- Counterexample to C7 as stated: `"x20240315"` is not an 8-digit date
string, not already hyphenated, and not a dot/slash-separated date, yet it
does not pass through unchanged — its digit content is hyphenated. -/
theorem claim_c7_counterexample :
    normalizeDate (some (.vstr (s2c "x20240315"))) = s2c "2024-03-15" ∧
    ¬ normalizeDate (some (.vstr (s2c "x20240315"))) = s2c "x20240315" := by
  decide

/-- C7 (amended).  8-digit `YYYYMMDD` dates are hyphenated; hyphenated
`YYYY-MM-DD` dates pass through unchanged; dot- and slash-separated
equivalents are converted to hyphenated form; more generally, any input whose
digit characters number exactly eight is rebuilt as the hyphenation of those
digits (even mixed with other text), and every other input passes through
trimmed of surrounding whitespace but otherwise unchanged. -/
theorem claim_c7_dateNormalize :
    (∀ y m d : Chars, y.length = 4 → m.length = 2 → d.length = 2 →
       (∀ c ∈ y ++ m ++ d, isDig c = true) →
       normalizeDate (some (.vstr (y ++ m ++ d))) = y ++ '-' :: m ++ '-' :: d) ∧
    (∀ y m d : Chars, y.length = 4 → m.length = 2 → d.length = 2 →
       (∀ c ∈ y ++ m ++ d, isDig c = true) →
       normalizeDate (some (.vstr (y ++ '-' :: m ++ '-' :: d))) =
         y ++ '-' :: m ++ '-' :: d) ∧
    (∀ (y m d : Chars) (sep : Char), sep = '.' ∨ sep = '/' →
       y.length = 4 → m.length = 2 → d.length = 2 →
       (∀ c ∈ y ++ m ++ d, isDig c = true) →
       normalizeDate (some (.vstr (y ++ sep :: m ++ sep :: d))) =
         y ++ '-' :: m ++ '-' :: d) ∧
    (∀ l : Chars, (l.filter isDig).length = 8 →
       normalizeDate (some (.vstr l)) = hyphenate8 (l.filter isDig)) ∧
    (∀ l : Chars, (l.filter isDig).length ≠ 8 →
       normalizeDate (some (.vstr l)) = jsTrim l) := by
  have hfilt : ∀ (y m d : Chars), (∀ c ∈ y ++ m ++ d, isDig c = true) →
      (y ++ m ++ d).filter isDig = y ++ m ++ d := fun y m d h =>
    List.filter_eq_self.mpr h
  refine ⟨?_, ?_, ?_, fun l h8 => normalizeDate_of_digits8 h8,
    fun l h8 => normalizeDate_of_not8 h8⟩
  · intro y m d hy hm hd hall
    have h8 : ((y ++ m ++ d).filter isDig).length = 8 := by
      rw [hfilt y m d hall]; simp [hy, hm, hd]
    rw [normalizeDate_of_digits8 h8, hfilt y m d hall,
      hyphenate8_append hy hm hd]
  · intro y m d hy hm hd hall
    have hfs : (y ++ '-' :: m ++ '-' :: d).filter isDig = y ++ m ++ d := by
      have hym : ∀ c ∈ y, isDig c = true := fun c hc =>
        hall c (by simp [hc])
      have hmm1 : ∀ c ∈ m, isDig c = true := fun c hc =>
        hall c (by simp [hc])
      have hdm : ∀ c ∈ d, isDig c = true := fun c hc =>
        hall c (by simp [hc])
      rw [List.filter_append, List.filter_cons_of_neg (by decide),
        List.filter_append, List.filter_cons_of_neg (by decide),
        List.filter_eq_self.mpr hym, List.filter_eq_self.mpr hmm1,
        List.filter_eq_self.mpr hdm, List.append_assoc]
    have h8 : ((y ++ '-' :: m ++ '-' :: d).filter isDig).length = 8 := by
      rw [hfs]; simp [hy, hm, hd]
    rw [normalizeDate_of_digits8 h8, hfs, hyphenate8_append hy hm hd]
  · intro y m d sep hsep hy hm hd hall
    have hsd : isDig sep = false := by
      rcases hsep with rfl | rfl <;> decide
    have hfs : (y ++ sep :: m ++ sep :: d).filter isDig = y ++ m ++ d := by
      have hym : ∀ c ∈ y, isDig c = true := fun c hc => hall c (by simp [hc])
      have hmm1 : ∀ c ∈ m, isDig c = true := fun c hc => hall c (by simp [hc])
      have hdm : ∀ c ∈ d, isDig c = true := fun c hc => hall c (by simp [hc])
      rw [List.filter_append, List.filter_cons_of_neg (by simp [hsd]),
        List.filter_append, List.filter_cons_of_neg (by simp [hsd]),
        List.filter_eq_self.mpr hym, List.filter_eq_self.mpr hmm1,
        List.filter_eq_self.mpr hdm, List.append_assoc]
    have h8 : ((y ++ sep :: m ++ sep :: d).filter isDig).length = 8 := by
      rw [hfs]; simp [hy, hm, hd]
    rw [normalizeDate_of_digits8 h8, hfs, hyphenate8_append hy hm hd]

/-- Witness for the amended C7 at concrete dates: `"20240315"` is hyphenated,
`"2024-03-15"` and `"2024.03.15"` behave as claimed, and `"hello"` passes
through trimmed (here: unchanged). -/
theorem claim_c7_dateNormalize_witness :
    normalizeDate (some (.vstr (s2c "2024" ++ s2c "03" ++ s2c "15"))) =
        s2c "2024" ++ '-' :: s2c "03" ++ '-' :: s2c "15" ∧
    normalizeDate (some (.vstr (s2c "2024" ++ '-' :: s2c "03" ++ '-' :: s2c "15"))) =
        s2c "2024" ++ '-' :: s2c "03" ++ '-' :: s2c "15" ∧
    normalizeDate (some (.vstr (s2c "2024" ++ '.' :: s2c "03" ++ '.' :: s2c "15"))) =
        s2c "2024" ++ '-' :: s2c "03" ++ '-' :: s2c "15" ∧
    normalizeDate (some (.vstr (s2c "hello"))) = jsTrim (s2c "hello") :=
  ⟨claim_c7_dateNormalize.1 (s2c "2024") (s2c "03") (s2c "15")
      (by decide) (by decide) (by decide) (by decide),
   claim_c7_dateNormalize.2.1 (s2c "2024") (s2c "03") (s2c "15")
      (by decide) (by decide) (by decide) (by decide),
   claim_c7_dateNormalize.2.2.1 (s2c "2024") (s2c "03") (s2c "15") '.'
      (Or.inl rfl) (by decide) (by decide) (by decide) (by decide),
   claim_c7_dateNormalize.2.2.2.2 (s2c "hello") (by decide)⟩

/-! ### Number-parsing lemmas (for C6 and C1) -/

/-- `takeWhile` keeps a list all of whose elements satisfy the predicate. -/
theorem takeWhile_eq_self_of_all {p : Char → Bool} :
    ∀ {l : Chars}, (∀ c ∈ l, p c = true) → l.takeWhile p = l := by
  intro l
  induction l with
  | nil => intro _; rfl
  | cons c rest ih =>
    intro h
    rw [List.takeWhile_cons_of_pos (h c (List.mem_cons_self c rest)),
      ih (fun c' hc' => h c' (List.mem_cons_of_mem c hc'))]

/-- `dropWhile` exhausts a list all of whose elements satisfy the predicate. -/
theorem dropWhile_eq_nil_of_all {p : Char → Bool} :
    ∀ {l : Chars}, (∀ c ∈ l, p c = true) → l.dropWhile p = [] := by
  intro l
  induction l with
  | nil => intro _; rfl
  | cons c rest ih =>
    intro h
    rw [List.dropWhile_cons_of_pos (h c (List.mem_cons_self c rest)),
      ih (fun c' hc' => h c' (List.mem_cons_of_mem c hc'))]

/-- `takeWhile` over a satisfied block followed by a failing head. -/
theorem takeWhile_append_stop {p : Char → Bool} {a : Chars} {x : Char}
    {y : Chars} (ha : ∀ c ∈ a, p c = true) (hx : p x = false) :
    (a ++ x :: y).takeWhile p = a := by
  induction a with
  | nil =>
    show (x :: y).takeWhile p = []
    rw [List.takeWhile_cons_of_neg (by simp [hx])]
  | cons c rest ih =>
    rw [List.cons_append,
      List.takeWhile_cons_of_pos (ha c (List.mem_cons_self c rest)),
      ih (fun c' hc' => ha c' (List.mem_cons_of_mem c hc'))]

/-- `dropWhile` over a satisfied block followed by a failing head. -/
theorem dropWhile_append_stop {p : Char → Bool} {a : Chars} {x : Char}
    {y : Chars} (ha : ∀ c ∈ a, p c = true) (hx : p x = false) :
    (a ++ x :: y).dropWhile p = x :: y := by
  induction a with
  | nil =>
    show (x :: y).dropWhile p = x :: y
    rw [List.dropWhile_cons_of_neg (by simp [hx])]
  | cons c rest ih =>
    rw [List.cons_append,
      List.dropWhile_cons_of_pos (ha c (List.mem_cons_self c rest)),
      ih (fun c' hc' => ha c' (List.mem_cons_of_mem c hc'))]

/-- Folding the digit accumulator from an arbitrary seed. -/
theorem natOfDigits_foldl_seed (l : Chars) :
    ∀ init : Nat,
      l.foldl (fun a c => 10 * a + digVal c) init =
        init * 10 ^ l.length + natOfDigits l := by
  induction l with
  | nil => intro init; simp [natOfDigits]
  | cons c rest ih =>
    intro init
    show rest.foldl _ (10 * init + digVal c) = _
    rw [ih (10 * init + digVal c)]
    have hc : natOfDigits (c :: rest) = digVal c * 10 ^ rest.length + natOfDigits rest := by
      show rest.foldl _ (10 * 0 + digVal c) = _
      rw [ih (10 * 0 + digVal c)]
      ring
    rw [hc, List.length_cons]
    ring

/-- Digit-string value of a concatenation. -/
theorem natOfDigits_append (a b : Chars) :
    natOfDigits (a ++ b) = natOfDigits a * 10 ^ b.length + natOfDigits b := by
  show (a ++ b).foldl _ 0 = _
  rw [List.foldl_append]
  exact natOfDigits_foldl_seed b _

/-- Digits differ from every fixed non-digit character. -/
theorem ne_of_isDig {c x : Char} (hc : isDig c = true) (hx : isDig x = false) :
    c ≠ x := by
  intro h
  rw [h] at hc
  rw [hc] at hx
  cases hx

/-- A two-character prefix test succeeds only on a matching head pair. -/
theorem pfxOf_two_iff {a b : Char} {l : Chars} :
    pfxOf [a, b] l = true ↔ ∃ rest, l = a :: b :: rest := by
  match l with
  | [] => simp [pfxOf]
  | [c] => simp [pfxOf]
  | c :: d :: rest =>
    simp only [pfxOf, Bool.and_eq_true, decide_eq_true_eq]
    constructor
    · rintro ⟨rfl, rfl, -⟩
      exact ⟨rest, rfl⟩
    · rintro ⟨r, heq⟩
      cases heq
      refine ⟨rfl, rfl, ?_⟩
      simp [pfxOf]

/-- None of the radix prefixes (`0x`, `0b`, `0o`, upper or lower) opens a
string made of digits, then a dot, then digits. -/
theorem pfx_radix_false_digits_dot {a b : Chars} {ch : Char}
    (ha : ∀ c ∈ a, isDig c = true) (_hb : ∀ c ∈ b, isDig c = true)
    (hch : isDig ch = false) (hdot : ch ≠ '.') :
    pfxOf ['0', ch] (a ++ '.' :: b) = false := by
  by_contra hcon
  have ht : pfxOf ['0', ch] (a ++ '.' :: b) = true := by
    revert hcon; cases pfxOf ['0', ch] (a ++ '.' :: b) <;> simp
  obtain ⟨rest, heq⟩ := pfxOf_two_iff.mp ht
  match a, heq with
  | [], heq =>
    simp only [List.nil_append, List.cons.injEq] at heq
    exact absurd heq.1 (by decide)
  | [c], heq =>
    simp only [List.cons_append, List.nil_append, List.cons.injEq] at heq
    exact hdot heq.2.1.symm
  | c :: c2 :: a', heq =>
    simp only [List.cons_append, List.cons.injEq] at heq
    exact ne_of_isDig (ha c2 (by simp)) hch heq.2.1

/-- None of the radix prefixes opens a nonempty all-digit string either,
because its second character (when any) is a digit. -/
theorem pfx_radix_false_digits {a : Chars} {ch : Char}
    (ha : ∀ c ∈ a, isDig c = true) (hch : isDig ch = false) :
    pfxOf ['0', ch] a = false := by
  by_contra hcon
  have ht : pfxOf ['0', ch] a = true := by
    revert hcon; cases pfxOf ['0', ch] a <;> simp
  obtain ⟨rest, heq⟩ := pfxOf_two_iff.mp ht
  subst heq
  exact absurd rfl (ne_of_isDig (ha ch (by simp)) hch)

/-- `parseExpPart` with nothing after the literal returns its base. -/
theorem parseExpPart_nil (base : Dec10) : parseExpPart base [] = some base := rfl

/-- `parseUnsigned` on a nonempty all-digit string. -/
theorem parseUnsigned_digits {l : Chars} (hne : l ≠ [])
    (h : ∀ c ∈ l, isDig c = true) :
    parseUnsigned l = some ⟨(natOfDigits l : Int), 0⟩ := by
  unfold parseUnsigned
  rw [takeWhile_eq_self_of_all h, dropWhile_eq_nil_of_all h]
  simp [hne, parseExpPart]

/-- `parseUnsigned` on `digits.digits` (integer part nonempty). -/
theorem parseUnsigned_digits_dot {a b : Chars} (hne : a ≠ [])
    (ha : ∀ c ∈ a, isDig c = true) (hb : ∀ c ∈ b, isDig c = true) :
    parseUnsigned (a ++ '.' :: b) =
      some ⟨(natOfDigits (a ++ b) : Int), -(b.length : Int)⟩ := by
  unfold parseUnsigned
  rw [takeWhile_append_stop ha (by decide), dropWhile_append_stop ha (by decide)]
  simp only [takeWhile_eq_self_of_all hb, dropWhile_eq_nil_of_all hb]
  simp [hne, parseExpPart]

/-- Head of a digit block (helper for sign-branch reasoning). -/
theorem head_ne_of_digits {l : Chars} {x : Char} (h : ∀ c ∈ l, isDig c = true)
    (hx : isDig x = false) : l.head? ≠ some x := by
  cases l with
  | nil => simp
  | cons c rest =>
    intro hcon
    have hcx : c = x := by
      simp only [List.head?_cons] at hcon
      exact Option.some.inj hcon
    exact ne_of_isDig (h c (by simp)) hx hcx

/-- `jsNumberParse` on a nonempty all-digit string yields its integer value. -/
theorem jsNumberParse_digits {l : Chars} (hne : l ≠ [])
    (h : ∀ c ∈ l, isDig c = true) :
    jsNumberParse l = some ⟨(natOfDigits l : Int), 0⟩ := by
  have hplus : l.head? ≠ some '+' := head_ne_of_digits h (by decide)
  have hminus : l.head? ≠ some '-' := head_ne_of_digits h (by decide)
  have hinf : ¬ l = s2c "Infinity" := by
    intro heq
    have h1 := congrArg List.head? heq
    rw [show List.head? (s2c "Infinity") = some 'I' from rfl] at h1
    exact head_ne_of_digits h (by decide) h1
  unfold jsNumberParse
  rw [if_neg hne,
    if_neg (by
      rw [show pfxOf (s2c "0x") l = false from
          pfx_radix_false_digits h (by decide),
        show pfxOf (s2c "0X") l = false from
          pfx_radix_false_digits h (by decide)]
      simp),
    if_neg (by
      rw [show pfxOf (s2c "0b") l = false from
          pfx_radix_false_digits h (by decide),
        show pfxOf (s2c "0B") l = false from
          pfx_radix_false_digits h (by decide)]
      simp),
    if_neg (by
      rw [show pfxOf (s2c "0o") l = false from
          pfx_radix_false_digits h (by decide),
        show pfxOf (s2c "0O") l = false from
          pfx_radix_false_digits h (by decide)]
      simp)]
  simp only [if_neg hminus, if_neg (by simp [hplus, hminus] :
    ¬ (l.head? = some '+' || l.head? = some '-') = true)]
  rw [if_neg hinf, parseUnsigned_digits hne h]
  simp

/-- `jsNumberParse` on `digits.digits` (integer part nonempty). -/
theorem jsNumberParse_digits_dot {a b : Chars} (hne : a ≠ [])
    (ha : ∀ c ∈ a, isDig c = true) (hb : ∀ c ∈ b, isDig c = true) :
    jsNumberParse (a ++ '.' :: b) =
      some ⟨(natOfDigits (a ++ b) : Int), -(b.length : Int)⟩ := by
  have hlne : a ++ '.' :: b ≠ [] := by simp
  have hplus : (a ++ '.' :: b).head? ≠ some '+' := by
    cases a with
    | nil => simp
    | cons c a' =>
      intro hcon
      simp only [List.cons_append, List.head?_cons] at hcon
      exact ne_of_isDig (ha c (by simp)) (by decide) (Option.some.inj hcon)
  have hminus : (a ++ '.' :: b).head? ≠ some '-' := by
    cases a with
    | nil => simp
    | cons c a' =>
      intro hcon
      simp only [List.cons_append, List.head?_cons] at hcon
      exact ne_of_isDig (ha c (by simp)) (by decide) (Option.some.inj hcon)
  have hinf : ¬ a ++ '.' :: b = s2c "Infinity" := by
    intro heq
    have h1 := congrArg List.head? heq
    rw [show List.head? (s2c "Infinity") = some 'I' from rfl] at h1
    cases a with
    | nil =>
      simp only [List.nil_append, List.head?_cons] at h1
      exact absurd (Option.some.inj h1) (by decide)
    | cons c a' =>
      simp only [List.cons_append, List.head?_cons] at h1
      exact ne_of_isDig (ha c (by simp)) (by decide) (Option.some.inj h1)
  unfold jsNumberParse
  rw [if_neg hlne,
    if_neg (by
      rw [show pfxOf (s2c "0x") (a ++ '.' :: b) = false from
          pfx_radix_false_digits_dot ha hb (by decide) (by decide),
        show pfxOf (s2c "0X") (a ++ '.' :: b) = false from
          pfx_radix_false_digits_dot ha hb (by decide) (by decide)]
      simp),
    if_neg (by
      rw [show pfxOf (s2c "0b") (a ++ '.' :: b) = false from
          pfx_radix_false_digits_dot ha hb (by decide) (by decide),
        show pfxOf (s2c "0B") (a ++ '.' :: b) = false from
          pfx_radix_false_digits_dot ha hb (by decide) (by decide)]
      simp),
    if_neg (by
      rw [show pfxOf (s2c "0o") (a ++ '.' :: b) = false from
          pfx_radix_false_digits_dot ha hb (by decide) (by decide),
        show pfxOf (s2c "0O") (a ++ '.' :: b) = false from
          pfx_radix_false_digits_dot ha hb (by decide) (by decide)]
      simp)]
  have hcond : ¬ ((decide ((a ++ '.' :: b).head? = some '+') ||
      decide ((a ++ '.' :: b).head? = some '-')) = true) := by
    simp only [decide_eq_false hplus, decide_eq_false hminus, Bool.or_self]
    simp
  simp only [if_neg hminus, if_neg hcond]
  rw [if_neg hinf, parseUnsigned_digits_dot hne ha hb]
  simp

/-- `parseExpPart` never changes the mantissa. -/
theorem parseExpPart_m {base : Dec10} {r : Chars} {d : Dec10}
    (h : parseExpPart base r = some d) : d.m = base.m := by
  cases r with
  | nil =>
    cases h
    rfl
  | cons c rest =>
    simp only [parseExpPart] at h
    split_ifs at h <;> cases h <;> rfl

/-- `parseUnsigned` produces a non-negative mantissa. -/
theorem parseUnsigned_m_nonneg {l : Chars} {d : Dec10}
    (h : parseUnsigned l = some d) : 0 ≤ d.m := by
  simp only [parseUnsigned] at h
  split at h
  · split_ifs at h
    rw [parseExpPart_m h]
    exact Int.ofNat_nonneg _
  · split_ifs at h
    rw [parseExpPart_m h]
    exact Int.ofNat_nonneg _

/-- A parse whose string has no leading minus sign has a non-negative
mantissa. -/
theorem jsNumberParse_m_nonneg_of_no_dash {l : Chars} {d : Dec10}
    (hneg : l.head? ≠ some '-') (h : jsNumberParse l = some d) : 0 ≤ d.m := by
  unfold jsNumberParse at h
  by_cases h0 : l = []
  · rw [if_pos h0] at h
    cases h
    decide
  rw [if_neg h0] at h
  by_cases h1 : (pfxOf (s2c "0x") l || pfxOf (s2c "0X") l) = true
  · rw [if_pos h1] at h
    rcases hx : radixVal 16 (l.drop 2) with _ | n <;> rw [hx] at h
    · cases h
    · simp only [Option.map_some'] at h
      cases h
      exact Int.ofNat_nonneg _
  rw [if_neg h1] at h
  by_cases h2 : (pfxOf (s2c "0b") l || pfxOf (s2c "0B") l) = true
  · rw [if_pos h2] at h
    rcases hx : radixVal 2 (l.drop 2) with _ | n <;> rw [hx] at h
    · cases h
    · simp only [Option.map_some'] at h
      cases h
      exact Int.ofNat_nonneg _
  rw [if_neg h2] at h
  by_cases h3 : (pfxOf (s2c "0o") l || pfxOf (s2c "0O") l) = true
  · rw [if_pos h3] at h
    rcases hx : radixVal 8 (l.drop 2) with _ | n <;> rw [hx] at h
    · cases h
    · simp only [Option.map_some'] at h
      cases h
      exact Int.ofNat_nonneg _
  rw [if_neg h3] at h
  simp only [if_neg hneg] at h
  by_cases hp : (decide (l.head? = some '+') || decide (l.head? = some '-')) = true
  · simp only [if_pos hp] at h
    by_cases hInf : l.tail = s2c "Infinity"
    · rw [if_pos hInf] at h
      cases h
    · rw [if_neg hInf] at h
      rcases hpu : parseUnsigned l.tail with _ | d' <;> rw [hpu] at h
      · cases h
      · simp only [Option.map_some'] at h
        cases h
        have := parseUnsigned_m_nonneg hpu
        simpa using this
  · simp only [if_neg hp] at h
    by_cases hInf : l = s2c "Infinity"
    · rw [if_pos hInf] at h
      cases h
    · rw [if_neg hInf] at h
      rcases hpu : parseUnsigned l with _ | d' <;> rw [hpu] at h
      · cases h
      · simp only [Option.map_some'] at h
        cases h
        have := parseUnsigned_m_nonneg hpu
        simpa using this

/-- A parse with a negative mantissa can only come from a string containing
a minus sign. -/
theorem jsNumberParse_neg_dash {l : Chars} {d : Dec10}
    (h : jsNumberParse l = some d) (hm : d.m < 0) : '-' ∈ l := by
  by_cases hneg : l.head? = some '-'
  · cases l with
    | nil => simp at hneg
    | cons c rest =>
      simp only [List.head?_cons, Option.some.injEq] at hneg
      subst hneg
      exact List.mem_cons_self _ _
  · exact absurd hm (not_lt.mpr (jsNumberParse_m_nonneg_of_no_dash hneg h))

/-- `jsRound` of an integer-valued parse is that integer. -/
theorem jsRound_int (n : Int) : jsRound ⟨n, 0⟩ = n := by
  simp [jsRound]

/-- `jsRound` preserves non-negativity of the mantissa. -/
theorem jsRound_nonneg {d : Dec10} (h : 0 ≤ d.m) : 0 ≤ jsRound d := by
  unfold jsRound
  split
  · exact mul_nonneg h (pow_nonneg (by norm_num) _)
  · apply Int.fdiv_nonneg
    · have : (0 : Int) < 10 ^ (-d.e).toNat := pow_pos (by norm_num) _
      omega
    · have : (0 : Int) < 10 ^ (-d.e).toNat := pow_pos (by norm_num) _
      omega

/-- `parseUnsigned` fails on digit-free text. -/
theorem parseUnsigned_none_no_digits {l : Chars}
    (h : ∀ c ∈ l, isDig c = false) : parseUnsigned l = none := by
  have htw : l.takeWhile isDig = [] := by
    cases l with
    | nil => rfl
    | cons c rest => exact List.takeWhile_cons_of_neg (by simp [h c (by simp)])
  have hdw : l.dropWhile isDig = l := dropWhile_eq_self_of_all h
  unfold parseUnsigned
  rw [htw, hdw]
  dsimp only
  split
  · rename_i r2
    have hr2 : List.takeWhile isDig r2 = [] := by
      cases r2 with
      | nil => rfl
      | cons c2 r3 =>
        exact List.takeWhile_cons_of_neg (by simp [h c2 (by simp)])
    simp [hr2]
  · simp

/-- The radix prefixes never open digit-free text (their first character is
the digit `0`). -/
theorem pfx_radix_false_no_digits {l : Chars} {ch : Char}
    (h : ∀ c ∈ l, isDig c = false) : pfxOf ['0', ch] l = false := by
  by_contra hcon
  have ht : pfxOf ['0', ch] l = true := by
    revert hcon; cases pfxOf ['0', ch] l <;> simp
  obtain ⟨rest, heq⟩ := pfxOf_two_iff.mp ht
  have := h '0' (by rw [heq]; simp)
  exact absurd this (by decide)

/-- `jsNumberParse` fails on nonempty digit-free text. -/
theorem jsNumberParse_none_no_digits {l : Chars} (hne : l ≠ [])
    (h : ∀ c ∈ l, isDig c = false) : jsNumberParse l = none := by
  unfold jsNumberParse
  rw [if_neg hne,
    if_neg (by
      rw [show pfxOf (s2c "0x") l = false from pfx_radix_false_no_digits h,
        show pfxOf (s2c "0X") l = false from pfx_radix_false_no_digits h]
      simp),
    if_neg (by
      rw [show pfxOf (s2c "0b") l = false from pfx_radix_false_no_digits h,
        show pfxOf (s2c "0B") l = false from pfx_radix_false_no_digits h]
      simp),
    if_neg (by
      rw [show pfxOf (s2c "0o") l = false from pfx_radix_false_no_digits h,
        show pfxOf (s2c "0O") l = false from pfx_radix_false_no_digits h]
      simp)]
  have htail : ∀ c ∈ l.tail, isDig c = false :=
    fun c hc => h c (List.mem_of_mem_tail hc)
  by_cases hp : (decide (l.head? = some '+') || decide (l.head? = some '-')) = true
  · simp only [if_pos hp]
    by_cases hInf : l.tail = s2c "Infinity"
    · rw [if_pos hInf]
    · rw [if_neg hInf, parseUnsigned_none_no_digits htail]
      rfl
  · simp only [if_neg hp]
    by_cases hInf : l = s2c "Infinity"
    · rw [if_pos hInf]
    · rw [if_neg hInf, parseUnsigned_none_no_digits h]
      rfl

/-- `jsRound` is the floor of the parsed value plus one half: it is within
one half of the value, with ties resolved upward (toward `+∞`). -/
theorem jsRound_close (d : Dec10) :
    (decVal d - 1 / 2 : Rat) < (jsRound d : Rat) ∧
      ((jsRound d : Rat) ≤ decVal d + 1 / 2) := by
  unfold jsRound decVal
  split
  · rename_i he
    have hcast : ((d.m * 10 ^ d.e.toNat : Int) : Rat) = (d.m : Rat) * 10 ^ d.e := by
      push_cast
      rw [← zpow_natCast (10 : Rat) d.e.toNat, Int.toNat_of_nonneg he]
    rw [hcast]
    constructor <;> · rw [show (1 : Rat) / 2 = 2⁻¹ by norm_num]; norm_num
  · rename_i he
    have hk : d.e = -((-d.e).toNat : Int) := by omega
    have hzpow : (10 : Rat) ^ d.e = ((10 : Rat) ^ (-d.e).toNat)⁻¹ := by
      conv_lhs => rw [hk]
      rw [zpow_neg, zpow_natCast]
    set k := (-d.e).toNat with hkdef
    set den : Int := 10 ^ k with hden
    have hdenpos : (0 : Int) < den := pow_pos (by norm_num) _
    have hdenR : ((den : Int) : Rat) = (10 : Rat) ^ k := by
      rw [hden]; push_cast; ring
    have hdenRpos : (0 : Rat) < ((den : Int) : Rat) := by exact_mod_cast hdenpos
    set q : Int := Int.fdiv (2 * d.m + den) (2 * den) with hq
    have hfd : q = (2 * d.m + den) / (2 * den) :=
      Int.fdiv_eq_ediv _ (by omega)
    have h1 : q * (2 * den) ≤ 2 * d.m + den := by
      rw [hfd]
      exact Int.ediv_mul_le _ (by omega)
    have h2 : 2 * d.m + den < (q + 1) * (2 * den) := by
      rw [hfd]
      exact Int.lt_ediv_add_one_mul_self _ (by omega)
    rw [hzpow]
    have hval : (d.m : Rat) * ((10 : Rat) ^ k)⁻¹ = (d.m : Rat) / ((den : Int) : Rat) := by
      rw [hdenR]
      ring
    rw [hval]
    have hq1 : (q : Rat) * (2 * ((den : Int) : Rat)) ≤ 2 * (d.m : Rat) + ((den : Int) : Rat) := by
      exact_mod_cast h1
    have hq2 : 2 * (d.m : Rat) + ((den : Int) : Rat) < ((q : Rat) + 1) * (2 * ((den : Int) : Rat)) := by
      exact_mod_cast h2
    constructor
    · have heq : (d.m : Rat) / ((den : Int) : Rat) - 1 / 2 =
          (2 * (d.m : Rat) - ((den : Int) : Rat)) / (2 * ((den : Int) : Rat)) := by
        field_simp
        ring
      rw [heq, div_lt_iff₀ (by linarith)]
      nlinarith
    · have heq : (d.m : Rat) / ((den : Int) : Rat) + 1 / 2 =
          (2 * (d.m : Rat) + ((den : Int) : Rat)) / (2 * ((den : Int) : Rat)) := by
        field_simp
        ring
      rw [heq, le_div_iff₀ (by linarith)]
      linarith

/-- Members of the trimmed text are members of the text. -/
theorem mem_of_mem_jsTrim {c : Char} {l : Chars} (hc : c ∈ jsTrim l) : c ∈ l := by
  unfold jsTrim at hc
  rw [List.mem_reverse] at hc
  have h1 : c ∈ (l.dropWhile isWs).reverse :=
    (List.dropWhile_sublist _).subset hc
  rw [List.mem_reverse] at h1
  exact (List.dropWhile_sublist _).subset h1

/-- `parseIntMoneyText` on a nonempty all-digit string is its value. -/
theorem parseIntMoneyText_digits {l : Chars} (hne : l ≠ [])
    (h : ∀ c ∈ l, isDig c = true) :
    parseIntMoneyText l = (natOfDigits l : Int) := by
  unfold parseIntMoneyText
  rw [if_neg hne, jsNumberParse_digits hne h]
  exact jsRound_int _

/-- `parseIntMoneyText` yields 0 on digit-free text. -/
theorem parseIntMoneyText_no_digits {l : Chars}
    (h : ∀ c ∈ l, isDig c = false) : parseIntMoneyText l = 0 := by
  unfold parseIntMoneyText
  by_cases hne : l = []
  · rw [if_pos hne]
  · rw [if_neg hne, jsNumberParse_none_no_digits hne h]

/-- Comma removal on digit-or-comma text is digit filtering. -/
theorem filter_ne_comma_of_digit_or_comma {l : Chars}
    (h : ∀ c ∈ l, isDig c = true ∨ c = ',') :
    l.filter (fun c => c ≠ ',') = l.filter isDig := by
  induction l with
  | nil => rfl
  | cons c rest ih =>
    have hrest := ih (fun c' hc' => h c' (List.mem_cons_of_mem c hc'))
    rcases h c (List.mem_cons_self c rest) with hc | hc
    · have hnc : c ≠ ',' := ne_of_isDig hc (by decide)
      rw [List.filter_cons_of_pos (by simpa using hnc),
        List.filter_cons_of_pos hc, hrest]
    · subst hc
      rw [List.filter_cons_of_neg (by simp),
        List.filter_cons_of_neg (by decide), hrest]

/-! ### Claim C6: money parsing -/

/-- C6.  Money parsing: a string of digit groups separated by commas parses
to the integer its digits denote (separators stripped); a decimal string
`a.b` parses to the JS rounding of its exact value, which is within one half
of the value (nearest integer, ties toward `+∞`); the empty string and every
digit-free (non-numeric) string yield 0. -/
theorem claim_c6_moneyParse :
    (∀ l : Chars, (∀ c ∈ l, isDig c = true ∨ c = ',') →
       (∃ c ∈ l, isDig c = true) →
       parseIntMoneyVal (.vstr l) = (natOfDigits (l.filter isDig) : Int)) ∧
    (∀ a b : Chars, a ≠ [] → (∀ c ∈ a, isDig c = true) →
       (∀ c ∈ b, isDig c = true) →
       parseIntMoneyVal (.vstr (a ++ '.' :: b)) =
         jsRound ⟨(natOfDigits (a ++ b) : Int), -(b.length : Int)⟩) ∧
    (∀ d : Dec10, (decVal d - 1 / 2 : Rat) < (jsRound d : Rat) ∧
       (jsRound d : Rat) ≤ decVal d + 1 / 2) ∧
    parseIntMoneyVal (.vstr []) = 0 ∧
    (∀ l : Chars, (∀ c ∈ l, isDig c = false) →
       parseIntMoneyVal (.vstr l) = 0) := by
  refine ⟨?_, ?_, jsRound_close, by decide, ?_⟩
  · intro l hdc hex
    show parseIntMoneyText (jsTrim (l.filter (fun c => c ≠ ','))) = _
    rw [filter_ne_comma_of_digit_or_comma hdc]
    have hdig : ∀ c ∈ l.filter isDig, isDig c = true :=
      fun c hc => (List.mem_filter.mp hc).2
    rw [jsTrim_eq_self (fun c hc => isWs_false_of_isDig (hdig c hc))]
    obtain ⟨c, hcl, hcd⟩ := hex
    exact parseIntMoneyText_digits
      (List.ne_nil_of_mem (List.mem_filter.mpr ⟨hcl, hcd⟩)) hdig
  · intro a b hne ha hb
    have hall : ∀ c ∈ a ++ '.' :: b, isDig c = true ∨ c = '.' := by
      intro c hc
      rcases List.mem_append.mp hc with hc | hc
      · exact Or.inl (ha c hc)
      · rcases List.mem_cons.mp hc with rfl | hc
        · exact Or.inr rfl
        · exact Or.inl (hb c hc)
    show parseIntMoneyText (jsTrim ((a ++ '.' :: b).filter (fun c => c ≠ ','))) = _
    rw [List.filter_eq_self.mpr (by
      intro c hc
      rcases hall c hc with h | h
      · simpa using ne_of_isDig h (by decide)
      · subst h; decide)]
    rw [jsTrim_eq_self (by
      intro c hc
      rcases hall c hc with h | h
      · exact isWs_false_of_isDig h
      · subst h; decide)]
    unfold parseIntMoneyText
    rw [if_neg (by simp), jsNumberParse_digits_dot hne ha hb]
  · intro l h
    cases l with
    | nil => decide
    | cons c rest =>
      show parseIntMoneyText (jsTrim ((c :: rest).filter (fun c => c ≠ ','))) = 0
      exact parseIntMoneyText_no_digits (fun c' hc' =>
        h c' (List.mem_of_mem_filter (mem_of_mem_jsTrim hc')))

/-- Witness for C6 at concrete inputs: `"1,234,567"` parses to `1234567`,
`"1234.56"` rounds to `1235`, and `"abc"` yields 0. -/
theorem claim_c6_moneyParse_witness :
    parseIntMoneyVal (.vstr (s2c "1,234,567")) =
        (natOfDigits ((s2c "1,234,567").filter isDig) : Int) ∧
    (natOfDigits ((s2c "1,234,567").filter isDig) : Int) = 1234567 ∧
    parseIntMoneyVal (.vstr (s2c "1234" ++ '.' :: s2c "56")) =
        jsRound ⟨(natOfDigits (s2c "1234" ++ s2c "56") : Int), -((s2c "56").length : Int)⟩ ∧
    jsRound ⟨(natOfDigits (s2c "1234" ++ s2c "56") : Int), -((s2c "56").length : Int)⟩ = 1235 ∧
    parseIntMoneyVal (.vstr (s2c "abc")) = 0 :=
  ⟨claim_c6_moneyParse.1 (s2c "1,234,567") (by decide) (by decide),
   by decide,
   claim_c6_moneyParse.2.1 (s2c "1234") (s2c "56") (by decide) (by decide) (by decide),
   by decide,
   claim_c6_moneyParse.2.2.2.2 (s2c "abc") (by decide)⟩

/-! ### Claim C1: monetary fields of produced transactions -/

/-- A negative `parseIntMoneyText` result requires a minus sign in its
input text. -/
theorem parseIntMoneyText_neg {s : Chars} (h : parseIntMoneyText s < 0) :
    '-' ∈ s := by
  unfold parseIntMoneyText at h
  split_ifs at h with hne
  · exact absurd h (by decide)
  · rcases hp : jsNumberParse s with _ | d <;> rw [hp] at h
    · exact absurd h (by decide)
    · have hm : d.m < 0 := by
        by_contra hm
        push_neg at hm
        exact absurd h (not_lt.mpr (jsRound_nonneg hm))
      exact jsNumberParse_neg_dash hp hm

/-- A negative `parseIntMoneyVal` result requires a minus sign in the
stringified value. -/
theorem parseIntMoneyVal_neg_dash {v : JValue} (h : parseIntMoneyVal v < 0) :
    '-' ∈ jsToString v := by
  cases v with
  | vnull => exact absurd h (by decide)
  | vundef => exact absurd h (by decide)
  | vstr s =>
    exact List.mem_of_mem_filter (mem_of_mem_jsTrim (parseIntMoneyText_neg h))
  | vint n =>
    exact List.mem_of_mem_filter (mem_of_mem_jsTrim (parseIntMoneyText_neg h))
  | vbool b =>
    exact List.mem_of_mem_filter (mem_of_mem_jsTrim (parseIntMoneyText_neg h))
  | vobjNil =>
    exact List.mem_of_mem_filter (mem_of_mem_jsTrim (parseIntMoneyText_neg h))
  | vobjCons k val rest =>
    exact List.mem_of_mem_filter (mem_of_mem_jsTrim (parseIntMoneyText_neg h))
  | varrNil =>
    exact List.mem_of_mem_filter (mem_of_mem_jsTrim (parseIntMoneyText_neg h))
  | varrCons hd tl =>
    exact List.mem_of_mem_filter (mem_of_mem_jsTrim (parseIntMoneyText_neg h))

/-- A value found by `recGet` is a value of the record. -/
theorem recGet_mem {r : Rec} {k : Chars} {v : JValue}
    (h : recGet r k = some v) : ∃ k', (k', v) ∈ r := by
  induction r with
  | nil => cases h
  | cons e rest ih =>
    unfold recGet at h
    rcases e with ⟨k0, v0⟩
    rcases hrest : recGet rest k with _ | w <;> rw [hrest] at h
    · split_ifs at h
      cases h
      exact ⟨k0, List.mem_cons_self _ _⟩
    · cases h
      obtain ⟨k', hk'⟩ := ih hrest
      exact ⟨k', List.mem_cons_of_mem _ hk'⟩

/-- A value selected by `firstPresent` is a value of the record. -/
theorem firstPresent_mem {r : Rec} {keys : List Chars} {v : JValue}
    (h : firstPresent r keys = some v) : ∃ k', (k', v) ∈ r := by
  induction keys with
  | nil => cases h
  | cons k rest ih =>
    simp only [firstPresent] at h
    split_ifs at h
    · exact recGet_mem h
    · exact ih h

/-- A money field is non-negative when its own selected source value
stringifies without a minus sign (an absent field is 0). -/
theorem parseIntMoney_nonneg_of_field_no_dash (r : Rec) (keys : List Chars)
    (h : '-' ∉ jsToString ((firstPresent r keys).getD (.vstr []))) :
    0 ≤ parseIntMoney (firstPresent r keys) := by
  rcases hfp : firstPresent r keys with _ | v
  · simp [parseIntMoney]
  · rw [hfp] at h
    simp only [Option.getD_some] at h
    show 0 ≤ parseIntMoneyVal v
    by_contra hneg
    push_neg at hneg
    exact h (parseIntMoneyVal_neg_dash hneg)

/-- Counterexample to C1 as stated: a record whose gross field is the string
`"-5"` produces a transaction whose gross amount is the negative integer
`-5`. -/
theorem claim_c1_counterexample :
    (normalizeRows 2024 1 [some [(s2c "gross", .vstr (s2c "-5"))]]).map
        Txn.gross = [-5] ∧
    ∃ t ∈ normalizeRows 2024 1 [some [(s2c "gross", .vstr (s2c "-5"))]],
      t.gross < 0 := by
  decide

/-- C1 (amended).  Every produced transaction comes from an object row of
the input, and each of its monetary fields (gross, deductions, net) is an
integer obtained by `parseIntMoney` that is non-negative whenever that
field's own selected source value stringifies without a minus sign (a
negative source value carries through to a negative integer); a field whose
aliases are all absent is 0; and empty or unparseable (digit-free) input
normalizes to 0. -/
theorem claim_c1_moneyFields :
    (∀ (y mo : Int) (rows : List (Option Rec)), ∀ t ∈ normalizeRows y mo rows,
       ∃ r, some r ∈ rows ∧ t = txnOfRow y mo r ∧
         ('-' ∉ jsToString ((firstPresent r grossKeys).getD (.vstr [])) →
            0 ≤ t.gross) ∧
         ('-' ∉ jsToString ((firstPresent r deductionsKeys).getD (.vstr [])) →
            0 ≤ t.deductions) ∧
         ('-' ∉ jsToString ((firstPresent r netKeys).getD (.vstr [])) →
            0 ≤ t.net)) ∧
    (∀ (y mo : Int) (r : Rec), firstPresent r grossKeys = none →
       (txnOfRow y mo r).gross = 0) ∧
    (∀ (y mo : Int) (r : Rec), firstPresent r deductionsKeys = none →
       (txnOfRow y mo r).deductions = 0) ∧
    (∀ (y mo : Int) (r : Rec), firstPresent r netKeys = none →
       (txnOfRow y mo r).net = 0) ∧
    parseIntMoneyVal (.vstr []) = 0 ∧
    (∀ l : Chars, (∀ c ∈ l, isDig c = false) →
       parseIntMoneyVal (.vstr l) = 0) := by
  refine ⟨?_, ?_, ?_, ?_, by decide, claim_c6_moneyParse.2.2.2.2⟩
  · intro y mo rows t ht
    simp only [normalizeRows, List.mem_map] at ht
    obtain ⟨r, hr, rfl⟩ := ht
    rw [List.mem_filterMap] at hr
    obtain ⟨ro, hro, hid⟩ := hr
    simp only [id_eq] at hid
    subst hid
    exact ⟨r, hro, rfl,
      fun hnd => parseIntMoney_nonneg_of_field_no_dash r grossKeys hnd,
      fun hnd => parseIntMoney_nonneg_of_field_no_dash r deductionsKeys hnd,
      fun hnd => parseIntMoney_nonneg_of_field_no_dash r netKeys hnd⟩
  · intro y mo r h
    simp [txnOfRow, h, parseIntMoney]
  · intro y mo r h
    simp [txnOfRow, h, parseIntMoney]
  · intro y mo r h
    simp [txnOfRow, h, parseIntMoney]

/-- Witness for the amended C1: a record carrying a hyphenated date and a
minus-free gross amount gives non-negative money fields, an alias-free
record gives 0, and digit-free text yields 0. -/
theorem claim_c1_moneyFields_witness :
    (0 ≤ (txnOfRow 2024 1 c1rec).gross ∧
     0 ≤ (txnOfRow 2024 1 c1rec).deductions ∧
     0 ≤ (txnOfRow 2024 1 c1rec).net) ∧
    (txnOfRow 2024 1 ([] : Rec)).gross = 0 ∧
    parseIntMoneyVal (.vstr (s2c "abc")) = 0 := by
  refine ⟨?_, claim_c1_moneyFields.2.1 2024 1 [] (by decide),
    claim_c1_moneyFields.2.2.2.2.2 (s2c "abc") (by decide)⟩
  obtain ⟨r, hmem, ht, hg, hd, hn⟩ :=
    claim_c1_moneyFields.1 2024 1 [some c1rec] (txnOfRow 2024 1 c1rec)
      (by decide)
  have hr : r = c1rec := by simpa using hmem
  subst hr
  exact ⟨hg (by decide), hd (by decide), hn (by decide)⟩

/-! ### Trace-level lemmas (for C2, C3, C4, C5) -/

/-- The requested period list has exactly `years × months` entries. -/
theorem periodPairs_length (p : ScrapeParams) :
    (periodPairs p).length = p.years.length * p.months.length := by
  unfold periodPairs
  induction p.years with
  | nil => simp
  | cons y ys ih =>
    simp only [List.map_cons, List.flatten_cons, List.length_append,
      List.length_map, List.length_cons, ih]
    ring

/-- The transaction component of the loop is the accumulated per-period
output, independent of the threaded job state. -/
theorem runPeriods_txns (env : Nat → PeriodEnv) (total : Nat) :
    ∀ (pairs : List (Int × Int)) (i : Nat) (s : JobState),
      (runPeriods env total pairs i s).2 = collectedTxnsFrom env pairs i := by
  intro pairs
  induction pairs with
  | nil => intro i s; rfl
  | cons ym rest ih =>
    intro i s
    rcases ym with ⟨y, mo⟩
    simp only [runPeriods, collectedTxnsFrom, ih]

/-- Invariant of the collection loop: progress counts grow one per period
and never pass `total`, and the loop's updates never touch status,
transactions, summary, or error fields. -/
theorem runPeriods_inv (env : Nat → PeriodEnv) (total : Nat) :
    ∀ (pairs : List (Int × Int)) (i : Nat) (s : JobState),
      s.processedMonths = i →
      i + pairs.length ≤ total →
      List.Chain' (fun a b => a.processedMonths ≤ b.processedMonths)
        (s :: (runPeriods env total pairs i s).1) ∧
      (∀ x ∈ (runPeriods env total pairs i s).1,
        x.processedMonths ≤ total ∧ x.totalMonths = total ∧
        x.status = s.status ∧ x.transactions = s.transactions ∧
        x.summary = s.summary ∧ x.errorMsg = s.errorMsg) := by
  intro pairs
  induction pairs with
  | nil =>
    intro i s hsp hlen
    exact ⟨List.chain'_singleton s, by simp [runPeriods]⟩
  | cons ym rest ih =>
    intro i s hsp hlen
    rcases ym with ⟨y, mo⟩
    have hlen' : i + 1 + rest.length ≤ total := by
      simp only [List.length_cons] at hlen
      omega
    have hi1 : i + 1 ≤ total := by
      simp only [List.length_cons] at hlen
      omega
    rcases hmid : (processPeriod y mo (env i)).midMsg with _ | _ <;>
      rcases herr : (processPeriod y mo (env i)).errText with _ | m <;>
        simp only [runPeriods, hmid, herr, reduceIte, List.cons_append,
          List.nil_append, List.singleton_append, List.append_nil]
    · have hrec := ih (i + 1)
        { status := s.status, message := progressMsg (i + 1) total y mo,
          totalMonths := total, processedMonths := i + 1,
          transactions := s.transactions, summary := s.summary,
          errorMsg := s.errorMsg } rfl hlen'
      refine ⟨List.chain'_cons.mpr
        ⟨by show s.processedMonths ≤ i + 1; omega, hrec.1⟩, ?_⟩
      intro x hx
      rcases List.mem_cons.mp hx with rfl | hx
      · exact ⟨hi1, rfl, rfl, rfl, rfl, rfl⟩
      · exact hrec.2 x hx
    · have hrec := ih (i + 1)
        { status := s.status, message := periodErrMsg (i + 1) total y mo m,
          totalMonths := total, processedMonths := i + 1,
          transactions := s.transactions, summary := s.summary,
          errorMsg := s.errorMsg } rfl hlen'
      refine ⟨List.chain'_cons.mpr
        ⟨by show s.processedMonths ≤ i + 1; omega,
         List.chain'_cons.mpr ⟨Nat.le.refl, hrec.1⟩⟩, ?_⟩
      intro x hx
      rcases List.mem_cons.mp hx with rfl | hx
      · exact ⟨hi1, rfl, rfl, rfl, rfl, rfl⟩
      rcases List.mem_cons.mp hx with rfl | hx
      · exact ⟨hi1, rfl, rfl, rfl, rfl, rfl⟩
      · exact hrec.2 x hx
    · have hrec := ih (i + 1)
        { status := s.status, message := msgTokenRefreshed,
          totalMonths := total, processedMonths := i + 1,
          transactions := s.transactions, summary := s.summary,
          errorMsg := s.errorMsg } rfl hlen'
      refine ⟨List.chain'_cons.mpr
        ⟨by show s.processedMonths ≤ i + 1; omega,
         List.chain'_cons.mpr ⟨Nat.le.refl, hrec.1⟩⟩, ?_⟩
      intro x hx
      rcases List.mem_cons.mp hx with rfl | hx
      · exact ⟨hi1, rfl, rfl, rfl, rfl, rfl⟩
      rcases List.mem_cons.mp hx with rfl | hx
      · exact ⟨hi1, rfl, rfl, rfl, rfl, rfl⟩
      · exact hrec.2 x hx
    · have hrec := ih (i + 1)
        { status := s.status, message := periodErrMsg (i + 1) total y mo m,
          totalMonths := total, processedMonths := i + 1,
          transactions := s.transactions, summary := s.summary,
          errorMsg := s.errorMsg } rfl hlen'
      refine ⟨List.chain'_cons.mpr
        ⟨by show s.processedMonths ≤ i + 1; omega,
         List.chain'_cons.mpr ⟨Nat.le.refl,
           List.chain'_cons.mpr ⟨Nat.le.refl, hrec.1⟩⟩⟩, ?_⟩
      intro x hx
      rcases List.mem_cons.mp hx with rfl | hx
      · exact ⟨hi1, rfl, rfl, rfl, rfl, rfl⟩
      rcases List.mem_cons.mp hx with rfl | hx
      · exact ⟨hi1, rfl, rfl, rfl, rfl, rfl⟩
      rcases List.mem_cons.mp hx with rfl | hx
      · exact ⟨hi1, rfl, rfl, rfl, rfl, rfl⟩
      · exact hrec.2 x hx

/-- The value delivered by `getLast?` is a member of the list. -/
theorem mem_of_getLast?_mem {α : Type} {l : List α} {x : α}
    (h : x ∈ l.getLast?) : x ∈ l := by
  obtain ⟨hne, rfl⟩ := List.mem_getLast?_eq_getLast h
  exact List.getLast_mem hne

/-- A tokenless run of the approval poll ends in the timeout error carrying
the threaded `lastError`. -/
theorem fidoLoop_timeout :
    ∀ (cycles : List CycleEnv) (le : Chars),
      (∀ c ∈ cycles, (cycleStep c).isLeft = false) →
      fidoLoop cycles le = .error (msgTimeoutLead ++ lastProbeErr cycles le) := by
  intro cycles
  induction cycles with
  | nil => intro le _; rfl
  | cons c rest ih =>
    intro le hfree
    have hc := hfree c (by simp)
    rcases hstep : cycleStep c with th | m
    · rw [hstep] at hc
      simp at hc
    · simp only [fidoLoop, lastProbeErr, hstep]
      exact ih m (fun c' hc' => hfree c' (by simp [hc']))

/-- The threaded `lastError` after a tokenless run is the text of the last
cycle: the formatted status codes, or the last probe's error message. -/
theorem lastProbeErr_append :
    ∀ (cycles : List CycleEnv) (c : CycleEnv) (le m : Chars),
      cycleStep c = .inr m → lastProbeErr (cycles ++ [c]) le = m := by
  intro cycles
  induction cycles with
  | nil =>
    intro c le m hc
    simp only [List.nil_append, lastProbeErr, hc]
  | cons c0 rest ih =>
    intro c le m hc
    simp only [List.cons_append, lastProbeErr]
    rcases hstep : cycleStep c0 with th | m0 <;> simp only [hstep] <;>
      exact ih c _ m hc

/-- Chain over a list extended by one final element. -/
theorem chain'_cons_append_one {α : Type} {R : α → α → Prop} {a b : α}
    {l : List α} (h1 : List.Chain' R (a :: l))
    (h2 : ∀ x ∈ (a :: l).getLast?, R x b) :
    List.Chain' R (a :: (l ++ [b])) := by
  have heq : a :: (l ++ [b]) = (a :: l) ++ [b] := rfl
  rw [heq, List.chain'_append]
  refine ⟨h1, List.chain'_singleton _, ?_⟩
  intro x hx y hy
  simp only [List.head?_cons, Option.mem_def, Option.some.injEq] at hy
  subst hy
  exact h2 x hx

/-- Master invariant of the whole job trace: progress is monotone, never
exceeds the period total, the total is constant, transactions stay empty in
every non-completed state, and a completed state carries the full accumulated
result with full progress. -/
theorem jobTrace_master (p : ScrapeParams) (env : Env) :
    List.Chain' (fun a b => a.processedMonths ≤ b.processedMonths)
      (jobTrace p env) ∧
    (∀ s ∈ jobTrace p env,
       s.totalMonths = p.years.length * p.months.length ∧
       s.processedMonths ≤ s.totalMonths ∧
       (s.status ≠ .completed → s.transactions = []) ∧
       (s.status = .completed →
          s.transactions = collectedTxns p env ∧
          s.processedMonths = p.years.length * p.months.length)) := by
  unfold jobTrace processJob
  rcases hpage : env.loginPage with r | pm
  · rcases htok : truthyTok r.token with _ | tok
    · simp only [htok, initJobState, errState]
      constructor
      · simp [List.chain'_cons]
      · intro s hs
        simp only [List.mem_cons, List.not_mem_nil, or_false] at hs
        rcases hs with rfl | rfl | rfl <;>
          exact ⟨rfl, Nat.zero_le _, fun _ => rfl, fun hco => by cases hco⟩
    · rcases hlogin : env.login with _ | _ | lm
      · rcases hfl : fidoLoop env.fido msgNoPollYet with fm | th
        · -- approval timeout
          simp only [htok, hlogin, hfl, initJobState, errState]
          constructor
          · simp [List.chain'_cons]
          · intro s hs
            simp only [List.mem_cons, List.not_mem_nil, or_false] at hs
            rcases hs with rfl | rfl | rfl | rfl <;>
              exact ⟨rfl, Nat.zero_le _, fun _ => rfl, fun hco => by cases hco⟩
        · -- collection path
          have hinv := runPeriods_inv env.period
            (p.years.length * p.months.length) (periodPairs p) 0
            { status := .fetching, message := msgApproved,
              totalMonths := p.years.length * p.months.length,
              processedMonths := 0, transactions := [], summary := none,
              errorMsg := none } rfl
            (by rw [periodPairs_length]; omega)
          have htx := runPeriods_txns env.period
            (p.years.length * p.months.length) (periodPairs p) 0
            { status := .fetching, message := msgApproved,
              totalMonths := p.years.length * p.months.length,
              processedMonths := 0, transactions := [], summary := none,
              errorMsg := none }
          simp only [htok, hlogin, hfl, initJobState]
          constructor
          · refine List.chain'_cons.mpr ⟨Nat.le.refl, ?_⟩
            refine List.chain'_cons.mpr ⟨Nat.le.refl, ?_⟩
            refine List.chain'_cons.mpr ⟨Nat.le.refl, ?_⟩
            refine chain'_cons_append_one hinv.1 ?_
            intro x hx
            have hx' := mem_of_getLast?_mem hx
            show x.processedMonths ≤ p.years.length * p.months.length
            rcases List.mem_cons.mp hx' with rfl | hx''
            · exact Nat.zero_le _
            · exact ((hinv.2 x hx'').1)
          · intro s hs
            simp only [List.mem_cons, List.mem_append, List.mem_singleton,
              List.not_mem_nil, or_false, false_or] at hs
            rcases hs with rfl | ((rfl | rfl | rfl) | hs) | rfl
            · exact ⟨rfl, Nat.zero_le _, fun _ => rfl, fun hco => by cases hco⟩
            · exact ⟨rfl, Nat.zero_le _, fun _ => rfl, fun hco => by cases hco⟩
            · exact ⟨rfl, Nat.zero_le _, fun _ => rfl, fun hco => by cases hco⟩
            · exact ⟨rfl, Nat.zero_le _, fun _ => rfl, fun hco => by cases hco⟩
            · obtain ⟨hb, htot, hst, htr, -, -⟩ := hinv.2 s hs
              refine ⟨htot, ?_, ?_, ?_⟩
              · rw [htot]; exact hb
              · intro _; exact htr
              · intro hco
                rw [hst] at hco
                cases hco
            · refine ⟨rfl, Nat.le.refl, fun hnc => absurd rfl hnc, fun _ => ?_⟩
              refine ⟨?_, rfl⟩
              show (runPeriods env.period _ (periodPairs p) 0 _).2 = _
              rw [htx]
              rfl
      · -- login failure detected
        simp only [htok, hlogin, initJobState, errState]
        constructor
        · simp [List.chain'_cons]
        · intro s hs
          simp only [List.mem_cons, List.not_mem_nil, or_false] at hs
          rcases hs with rfl | rfl | rfl | rfl <;>
            exact ⟨rfl, Nat.zero_le _, fun _ => rfl, fun hco => by cases hco⟩
      · -- login transport failure
        simp only [htok, hlogin, initJobState, errState]
        constructor
        · simp [List.chain'_cons]
        · intro s hs
          simp only [List.mem_cons, List.not_mem_nil, or_false] at hs
          rcases hs with rfl | rfl | rfl | rfl <;>
            exact ⟨rfl, Nat.zero_le _, fun _ => rfl, fun hco => by cases hco⟩
  · -- login page transport failure
    simp only [initJobState, errState]
    constructor
    · simp [List.chain'_cons]
    · intro s hs
      simp only [List.mem_cons, List.not_mem_nil, or_false] at hs
      rcases hs with rfl | rfl | rfl <;>
        exact ⟨rfl, Nat.zero_le _, fun _ => rfl, fun hco => by cases hco⟩

/-- `getLast?` of a list extended by one final element. -/
theorem getLast?_cons_append_one {α : Type} (a b : α) (l : List α) :
    (a :: (l ++ [b])).getLast? = some b := by
  have heq : a :: (l ++ [b]) = (a :: l) ++ [b] := rfl
  rw [heq, List.getLast?_concat]

/-- When login succeeds and the approval poll finds a token, the job's final
state is the completed state carrying the full accumulated result. -/
theorem jobTrace_final_ok (p : ScrapeParams) (env : Env) (r : ProbeResp)
    (tok : Chars) (th : Chars × Chars)
    (hpage : env.loginPage = .resp r) (htok : truthyTok r.token = some tok)
    (hlogin : env.login = .okL)
    (hfl : fidoLoop env.fido msgNoPollYet = .ok th) :
    (jobTrace p env).getLast? = some (finalState p env) := by
  have hinv := runPeriods_inv env.period
    (p.years.length * p.months.length) (periodPairs p) 0
    { status := .fetching, message := msgApproved,
      totalMonths := p.years.length * p.months.length,
      processedMonths := 0, transactions := [], summary := none,
      errorMsg := none } rfl
    (by rw [periodPairs_length]; omega)
  have htx := runPeriods_txns env.period
    (p.years.length * p.months.length) (periodPairs p) 0
    { status := .fetching, message := msgApproved,
      totalMonths := p.years.length * p.months.length,
      processedMonths := 0, transactions := [], summary := none,
      errorMsg := none }
  unfold jobTrace processJob
  simp only [hpage, htok, hlogin, hfl, initJobState]
  refine Eq.trans (getLast?_cons_append_one _ _ _) ?_
  refine congrArg some ?_
  have herr : ((runPeriods env.period (p.years.length * p.months.length)
      (periodPairs p) 0
      { status := .fetching, message := msgApproved,
        totalMonths := p.years.length * p.months.length,
        processedMonths := 0, transactions := [], summary := none,
        errorMsg := none }).1.getLast?.getD
      { status := .fetching, message := msgApproved,
        totalMonths := p.years.length * p.months.length,
        processedMonths := 0, transactions := [], summary := none,
        errorMsg := none }).errorMsg = none := by
    rcases hgl : (runPeriods env.period (p.years.length * p.months.length)
        (periodPairs p) 0
        { status := .fetching, message := msgApproved,
          totalMonths := p.years.length * p.months.length,
          processedMonths := 0, transactions := [], summary := none,
          errorMsg := none }).1.getLast? with _ | x
    · rfl
    · have hx : x ∈ (runPeriods env.period (p.years.length * p.months.length)
          (periodPairs p) 0
          { status := .fetching, message := msgApproved,
            totalMonths := p.years.length * p.months.length,
            processedMonths := 0, transactions := [], summary := none,
            errorMsg := none }).1 :=
        mem_of_getLast?_mem (by rw [hgl]; rfl)
      simpa using (hinv.2 x hx).2.2.2.2.2
    
  simp [finalState, collectedTxns, htx, herr]

/-- A tokenless approval poll drives the job to the timeout error state. -/
theorem jobTrace_final_timeout (p : ScrapeParams) (env : Env) (r : ProbeResp)
    (tok : Chars)
    (hpage : env.loginPage = .resp r) (htok : truthyTok r.token = some tok)
    (hlogin : env.login = .okL)
    (hfree : ∀ c ∈ env.fido, (cycleStep c).isLeft = false) :
    (jobTrace p env).getLast? =
      some (timeoutState p
        (msgTimeoutLead ++ lastProbeErr env.fido msgNoPollYet)) := by
  unfold jobTrace processJob
  simp only [hpage, htok, hlogin,
    fidoLoop_timeout env.fido msgNoPollYet hfree, initJobState, errState,
    timeoutState]
  rfl

/-! ### Claims C2–C5 -/

/-- C4.  Across every job trace, `processedMonths` is monotonically
non-decreasing, never exceeds `totalMonths` in any state, and the trace
starts at the created state with `processedMonths = 0`. -/
theorem claim_c4_progressMonotone :
    ∀ (p : ScrapeParams) (env : Env),
      List.Chain' (fun a b => a.processedMonths ≤ b.processedMonths)
        (jobTrace p env) ∧
      (∀ s ∈ jobTrace p env, s.processedMonths ≤ s.totalMonths) ∧
      (jobTrace p env).head? = some (initJobState p) ∧
      (initJobState p).processedMonths = 0 := by
  intro p env
  obtain ⟨hchain, hmem⟩ := jobTrace_master p env
  exact ⟨hchain, fun s hs => (hmem s hs).2.1, rfl, rfl⟩

/-- C5.  Transactions stay empty in every non-completed state; a completed
state carries the full accumulated collection; and a snapshot exposes the
transaction collection exactly when the job is completed. -/
theorem claim_c5_txnVisibility :
    (∀ (p : ScrapeParams) (env : Env), ∀ s ∈ jobTrace p env,
       s.status ≠ .completed → s.transactions = []) ∧
    (∀ (p : ScrapeParams) (env : Env), ∀ s ∈ jobTrace p env,
       s.status = .completed → s.transactions = collectedTxns p env) ∧
    (∀ job : JobState, (toSnapshot job).transactions =
       if job.status = .completed then some job.transactions else none) ∧
    (∀ job : JobState,
       ((toSnapshot job).transactions).isSome = true ↔
         job.status = .completed) := by
  refine ⟨?_, ?_, fun job => rfl, ?_⟩
  · intro p env s hs hnc
    exact ((jobTrace_master p env).2 s hs).2.2.1 hnc
  · intro p env s hs hco
    exact (((jobTrace_master p env).2 s hs).2.2.2 hco).1
  · intro job
    by_cases h : job.status = .completed <;> simp [toSnapshot, h]

/-- C2.  Stale-session handling per period: an HTML first response triggers
exactly one token refresh and (once a token is obtained) exactly one retried
POST; a JSON retry contributes the normalized rows of its payload with no
error recorded; an HTML retry contributes no transactions and records the
non-fatal message; and whatever the periods return, the loop runs to the end
and the job still completes with full progress. -/
theorem claim_c2_staleRetry :
    (∀ (y mo : Int) (e : PeriodEnv) (b : Chars) (r : ProbeResp) (t : Chars),
       e.first = .ok b → isHtml b = true → e.refresh = .resp r →
       truthyTok r.token = some t →
       (processPeriod y mo e).acts = [.post, .refreshTok, .post]) ∧
    (∀ (y mo : Int) (e : PeriodEnv) (b : Chars),
       e.first = .ok b → isHtml b = true →
       (processPeriod y mo e).acts = [.post, .refreshTok] ∨
       (processPeriod y mo e).acts = [.post, .refreshTok, .post]) ∧
    (∀ (y mo : Int) (e : PeriodEnv) (b : Chars) (r : ProbeResp) (t : Chars)
       (b2 : Chars) (rows : List (Option Rec)),
       e.first = .ok b → isHtml b = true → e.refresh = .resp r →
       truthyTok r.token = some t → e.retry = .ok b2 → isHtml b2 = false →
       parsePayload b2 = some rows →
       (processPeriod y mo e).txns = normalizeRows y mo rows ∧
       (processPeriod y mo e).errText = none) ∧
    (∀ (y mo : Int) (e : PeriodEnv) (b : Chars) (r : ProbeResp) (t : Chars)
       (b2 : Chars),
       e.first = .ok b → isHtml b = true → e.refresh = .resp r →
       truthyTok r.token = some t → e.retry = .ok b2 → isHtml b2 = true →
       (processPeriod y mo e).txns = [] ∧
       (processPeriod y mo e).errText = some msgHtmlAgain) ∧
    (∀ (p : ScrapeParams) (env : Env) (r : ProbeResp) (tok : Chars)
       (th : Chars × Chars),
       env.loginPage = .resp r → truthyTok r.token = some tok →
       env.login = .okL → fidoLoop env.fido msgNoPollYet = .ok th →
       (jobTrace p env).getLast? = some (finalState p env) ∧
       (finalState p env).status = .completed ∧
       (finalState p env).processedMonths =
         p.years.length * p.months.length) := by
  refine ⟨?_, ?_, ?_, ?_, ?_⟩
  · intro y mo e b r t hb hhtml hr ht
    simp only [processPeriod, hb, hhtml, hr, ht, if_true]
    rcases hret : e.retry with b2 | m
    · by_cases h2 : isHtml b2 = true
      · simp only [h2, if_true]
      · simp only [h2, Bool.false_eq_true, if_false]
        rcases parsePayload b2 with _ | rows <;> rfl
    · rfl
  · intro y mo e b hb hhtml
    simp only [processPeriod, hb, hhtml, if_true]
    rcases hrf : e.refresh with r | m
    · dsimp only
      rcases htt : truthyTok r.token with _ | t
      · exact Or.inl rfl
      · dsimp only
        rcases hret : e.retry with b2 | m2
        · dsimp only
          by_cases h2 : isHtml b2 = true
          · simp only [h2, if_true]; exact Or.inr trivial
          · simp only [h2, Bool.false_eq_true, if_false]
            rcases parsePayload b2 with _ | rows <;> exact Or.inr rfl
        · exact Or.inr rfl
    · exact Or.inl rfl
  · intro y mo e b r t b2 rows hb hhtml hr ht h2 hnh hpp
    simp only [processPeriod, hb, hhtml, hr, ht, h2, hnh, hpp, if_true,
      Bool.false_eq_true, if_false]
    exact ⟨trivial, trivial⟩
  · intro y mo e b r t b2 hb hhtml hr ht h2 hh2
    simp only [processPeriod, hb, hhtml, hr, ht, h2, hh2, if_true]
    exact ⟨trivial, trivial⟩
  · intro p env r tok th hpage htok hlogin hfl
    exact ⟨jobTrace_final_ok p env r tok th hpage htok hlogin hfl, rfl, rfl⟩

/-- C3.  A job whose approval poll never finds a token before the deadline
ends in the `error` state — and no other — with a message and error field
carrying the timeout text built from the last-seen probe status line or last
probe error message (`lastProbeErr` keeps the text of the last cycle). -/
theorem claim_c3_fidoTimeout :
    (∀ (p : ScrapeParams) (env : Env) (r : ProbeResp) (tok : Chars),
       env.loginPage = .resp r → truthyTok r.token = some tok →
       env.login = .okL →
       (∀ c ∈ env.fido, (cycleStep c).isLeft = false) →
       (jobTrace p env).getLast? =
         some (timeoutState p
           (msgTimeoutLead ++ lastProbeErr env.fido msgNoPollYet)) ∧
       (timeoutState p
           (msgTimeoutLead ++ lastProbeErr env.fido msgNoPollYet)).status =
         .error ∧
       (timeoutState p
           (msgTimeoutLead ++ lastProbeErr env.fido msgNoPollYet)).message =
         msgFailLead ++ msgTimeoutLead ++ lastProbeErr env.fido msgNoPollYet ∧
       (timeoutState p
           (msgTimeoutLead ++ lastProbeErr env.fido msgNoPollYet)).errorMsg =
         some (msgTimeoutLead ++ lastProbeErr env.fido msgNoPollYet)) ∧
    (∀ (cycles : List CycleEnv) (c : CycleEnv) (le m : Chars),
       cycleStep c = .inr m → lastProbeErr (cycles ++ [c]) le = m) := by
  constructor
  · intro p env r tok hpage htok hlogin hfree
    refine ⟨jobTrace_final_timeout p env r tok hpage htok hlogin hfree,
      rfl, ?_, rfl⟩
    simp [timeoutState, List.append_assoc]
  · exact lastProbeErr_append

theorem claim_c2_staleRetry_witness :
    (processPeriod 2024 1 wPeriodStale).acts = [.post, .refreshTok, .post] ∧
    (processPeriod 2024 1 wPeriodStale).txns = normalizeRows 2024 1 [] ∧
    (processPeriod 2024 1 wPeriodStale).errText = none ∧
    (jobTrace wParams wEnvOk).getLast? = some (finalState wParams wEnvOk) ∧
    (finalState wParams wEnvOk).status = .completed ∧
    (finalState wParams wEnvOk).processedMonths =
      wParams.years.length * wParams.months.length := by
  have h1 := claim_c2_staleRetry.1 2024 1 wPeriodStale
    (s2c "<html><body>session expired</body></html>") wTokResp (s2c "tok")
    rfl (by decide) rfl (by decide)
  have h3 := claim_c2_staleRetry.2.2.1 2024 1 wPeriodStale
    (s2c "<html><body>session expired</body></html>") wTokResp (s2c "tok")
    (s2c "\x7b\"ok\":true\x7d") []
    rfl (by decide) rfl (by decide) rfl (by decide) (by decide)
  have h5 := claim_c2_staleRetry.2.2.2.2 wParams wEnvOk wTokResp (s2c "tok")
    (s2c "tok", s2c "X-CSRF-TOKEN") rfl (by decide) rfl rfl
  exact ⟨h1, h3.1, h3.2, h5.1, h5.2.1, h5.2.2⟩

theorem claim_c3_fidoTimeout_witness :
    ((jobTrace wParams wEnvTimeout).getLast? =
        some (timeoutState wParams
          (msgTimeoutLead ++ lastProbeErr wEnvTimeout.fido msgNoPollYet)) ∧
      (timeoutState wParams
          (msgTimeoutLead ++
            lastProbeErr wEnvTimeout.fido msgNoPollYet)).status = .error) ∧
    lastProbeErr ([] ++ [wCycleMiss]) msgNoPollYet = pollMsg 200 302 404 := by
  refine ⟨?_, ?_⟩
  · have h := claim_c3_fidoTimeout.1 wParams wEnvTimeout wTokResp (s2c "tok")
      rfl (by decide) rfl (by decide)
    exact ⟨h.1, h.2.1⟩
  · exact claim_c3_fidoTimeout.2 [] wCycleMiss msgNoPollYet
      (pollMsg 200 302 404) (by decide)

theorem claim_c4_progressMonotone_witness :
    (initJobState wParams).processedMonths ≤ (initJobState wParams).totalMonths :=
  (claim_c4_progressMonotone wParams wEnvOk).2.1 (initJobState wParams)
    (List.mem_cons_self _ _)

theorem claim_c5_txnVisibility_witness :
    (initJobState wParams).transactions = [] :=
  claim_c5_txnVisibility.1 wParams wEnvOk (initJobState wParams)
    (List.mem_cons_self _ _) (by decide)
